import Mathlib

/-!
Shallow embedding of the entity/component simulation kernel
(`src/entities/entity.py`, `src/entities/entity_manager.py`,
`src/utils/spatial_grid.py`, `src/utils/object_pool.py`).

Modelling conventions, each noted again at the definition it concerns:
* Python `dict` (insertion ordered, in-place value replacement) is an
  association list with `alookup` / `ainsert` / `apop`.
* Python `set` is a duplicate-free list with `setAdd` / `List.erase`.
* `uuid.uuid4()` identifiers are abstracted to natural numbers handed out
  by a monotone counter, which preserves the only property the kernel
  relies on: freshly generated ids never collide.
* Python floats are modelled as rationals; `pygame.Rect` stores integers
  obtained by truncating its arguments toward zero (`pyInt`), and
  `Rect.colliderect` is the pygame 2 test in which zero-sized rectangles
  collide with nothing and edge contact does not count as a collision.
* Gameplay components are modelled by their effect on the owning entity:
  a `behavior` component whose update either does nothing or calls
  `self.entity.destroy()` (as `InkSlimeComponent.update` and
  `HealthComponent.update` do in the source).  Base-class `on_add` /
  `on_remove` hooks are no-ops, exactly as in `component.py`.
-/

/-- Lookup in an insertion-ordered association list (Python `d.get(k)`). -/
def alookup {κ β : Type} [DecidableEq κ] : List (κ × β) → κ → Option β
  | [], _ => none
  | (k, v) :: rest, key => if k = key then some v else alookup rest key

/-- Python `d[k] = v`: replace in place if the key exists, else append. -/
def ainsert {κ β : Type} [DecidableEq κ] : List (κ × β) → κ → β → List (κ × β)
  | [], key, val => [(key, val)]
  | (k, v) :: rest, key, val =>
    if k = key then (key, val) :: rest else (k, v) :: ainsert rest key val

/-- Python `d.pop(k, None)`: the removed value (if any) and the remaining table. -/
def apop {κ β : Type} [DecidableEq κ] : List (κ × β) → κ → Option β × List (κ × β)
  | [], _ => (none, [])
  | (k, v) :: rest, key =>
    if k = key then (some v, rest)
    else
      let r := apop rest key
      (r.1, (k, v) :: r.2)

/-- Python `d.pop(k)` followed by `del`: drop the first entry with the key. -/
def aerase {κ β : Type} [DecidableEq κ] : List (κ × β) → κ → List (κ × β)
  | [], _ => []
  | (k, v) :: rest, key => if k = key then rest else (k, v) :: aerase rest key

/-- Python `s.add(x)` on a set modelled as a duplicate-free list. -/
def setAdd {α : Type} [DecidableEq α] (l : List α) (a : α) : List α :=
  if a ∈ l then l else l ++ [a]

/-- Payload of a component, by component type.  `behavior` stands for a
gameplay component whose `update` may call `self.entity.destroy()`. -/
inductive ComponentData : Type
  | transform (x y : ℚ)
  | collision (width height : ℚ)
  | physics (vx vy : ℚ)
  | inkSlime (ink_color : String)
  | behavior (destroysOwner : Bool)
  | plain
deriving DecidableEq, Repr

/-- `Component` (`component.py`): type tag, back-reference to the owning
entity (by id, `none` when detached), enabled flag, payload. -/
structure Component : Type where
  component_type : String
  data : ComponentData
  entity : Option ℕ := none
  enabled : Bool := true
deriving DecidableEq, Repr

/-- `Entity` (`entity.py`): component map, tag list, lifecycle flags. -/
structure Entity : Type where
  entity_id : ℕ
  name : String := "Entity"
  components : List (String × Component) := []
  tags : List String := []
  active : Bool := true
  marked_for_destruction : Bool := false
deriving DecidableEq, Repr

namespace Entity

/-- `Entity.get_component`. -/
def get_component (e : Entity) (component_type : String) : Option Component :=
  alookup e.components component_type

/-- `Entity.has_component`. -/
def has_component (e : Entity) (component_type : String) : Bool :=
  (alookup e.components component_type).isSome

/-- `Entity.remove_component`: pop the entry, fire the (no-op) `on_remove`,
clear the component's back-reference; returns the updated entity and the
removed component as the caller now sees it. -/
def remove_component (e : Entity) (component_type : String) :
    Entity × Option Component :=
  let r := apop e.components component_type
  match r.1 with
  | none => (e, none)
  | some c => ({ e with components := r.2 }, some { c with entity := none })

/-- `Entity.add_component`: detach any same-typed component first, then
attach with the back-reference set and fire the (no-op) `on_add`. -/
def add_component (e : Entity) (c : Component) : Entity :=
  let e1 := if (alookup e.components c.component_type).isSome then
    (e.remove_component c.component_type).1 else e
  { e1 with components :=
      ainsert e1.components c.component_type { c with entity := some e.entity_id } }

/-- `Entity.add_tag`. -/
def add_tag (e : Entity) (tag : String) : Entity :=
  if tag ∈ e.tags then e else { e with tags := e.tags ++ [tag] }

/-- `Entity.has_tag`. -/
def has_tag (e : Entity) (tag : String) : Bool := tag ∈ e.tags

/-- `Entity.remove_tag`. -/
def remove_tag (e : Entity) (tag : String) : Entity :=
  { e with tags := e.tags.erase tag }

/-- `Entity.destroy`: set the flags, fire each component's (no-op)
`on_remove`, clear the component map.  The source does **not** clear the
detached components' `entity` back-references here (contrast
`remove_component`); the second projection returns the detached component
objects exactly as the caller still holds them. -/
def destroy (e : Entity) : Entity × List Component :=
  ({ e with marked_for_destruction := true, active := false, components := [] },
   e.components.map Prod.snd)

/-- Whether some enabled component's `update` calls `self.entity.destroy()`
this tick (the modelled effect of gameplay components such as
`InkSlimeComponent`). -/
def selfDestructs (e : Entity) : Bool :=
  e.components.any fun p =>
    p.2.enabled && (match p.2.data with | .behavior b => b | _ => false)

/-- `Entity.update`: skip if inactive, otherwise run the enabled components
over a snapshot; in the modelled effect space this either leaves the entity
unchanged or destroys it. -/
def update (e : Entity) (_dt : ℚ) : Entity :=
  if !e.active then e
  else if e.selfDestructs then (e.destroy).1
  else e

end Entity

/-- `EntityManager` state (`entity_manager.py`): authoritative table,
deferred add/remove queues, tag index. -/
structure EntityManager : Type where
  entities : List (ℕ × Entity) := []
  entities_to_add : List Entity := []
  entities_to_remove : List ℕ := []
  tag_index : List (String × List ℕ) := []
deriving DecidableEq, Repr

namespace EntityManager

/-- `EntityManager.add_entity`: append to the pending-add queue only. -/
def add_entity (m : EntityManager) (e : Entity) : EntityManager :=
  { m with entities_to_add := m.entities_to_add ++ [e] }

/-- `EntityManager.remove_entity`: enqueue the id only if it is currently
in the authoritative table. -/
def remove_entity (m : EntityManager) (entity_id : ℕ) : EntityManager :=
  if (alookup m.entities entity_id).isSome then
    { m with entities_to_remove := m.entities_to_remove ++ [entity_id] }
  else m

/-- `EntityManager.get_entity`. -/
def get_entity (m : EntityManager) (entity_id : ℕ) : Option Entity :=
  alookup m.entities entity_id

/-- `EntityManager.get_entities_with_tag`: read the tag index, then keep
the ids still present in the authoritative table. -/
def get_entities_with_tag (m : EntityManager) (tag : String) : List Entity :=
  ((alookup m.tag_index tag).getD []).filterMap fun entity_id =>
    alookup m.entities entity_id

/-- `EntityManager.get_entities_with_component`. -/
def get_entities_with_component (m : EntityManager) (component_type : String) :
    List Entity :=
  (m.entities.map Prod.snd).filter fun e => e.has_component component_type

/-- `if tag not in self.tag_index: self.tag_index[tag] = set()` followed by
`self.tag_index[tag].add(entity_id)`. -/
def tagIndexAdd (entity_id : ℕ) (idx : List (String × List ℕ)) (tag : String) :
    List (String × List ℕ) :=
  match alookup idx tag with
  | none => ainsert idx tag [entity_id]
  | some s => ainsert idx tag (setAdd s entity_id)

/-- One pending addition: insert into the table, merge tags into the index. -/
def flushAddOne (acc : List (ℕ × Entity) × List (String × List ℕ)) (e : Entity) :
    List (ℕ × Entity) × List (String × List ℕ) :=
  (ainsert acc.1 e.entity_id e, e.tags.foldl (tagIndexAdd e.entity_id) acc.2)

/-- `EntityManager._process_entity_additions`. -/
def processAdditions (m : EntityManager) : EntityManager :=
  let r := m.entities_to_add.foldl flushAddOne (m.entities, m.tag_index)
  { m with entities := r.1, tag_index := r.2, entities_to_add := [] }

/-- One step of the update pass, for one snapshot id: update the entity in
place if it is active and unmarked, then enqueue it for removal if it is
now marked (`remove_entity` re-checks table membership, as the source does). -/
def updateStep (dt : ℚ)
    (acc : List (ℕ × Entity) × List ℕ × List ℕ) (entity_id : ℕ) :
    List (ℕ × Entity) × List ℕ × List ℕ :=
  match alookup acc.1 entity_id with
  | none => acc
  | some e =>
    let r : Entity × List ℕ :=
      if e.active && !e.marked_for_destruction then
        (e.update dt, acc.2.2 ++ [entity_id])
      else (e, acc.2.2)
    let table := ainsert acc.1 entity_id r.1
    let removeQ :=
      if r.1.marked_for_destruction && (alookup table entity_id).isSome then
        acc.2.1 ++ [entity_id]
      else acc.2.1
    (table, removeQ, r.2)

/-- `if tag in self.tag_index:` discard the id from the tag's set, and
delete the tag's entry once the set is empty. -/
def tagIndexDiscard (entity_id : ℕ) (idx : List (String × List ℕ))
    (tag : String) : List (String × List ℕ) :=
  match alookup idx tag with
  | none => idx
  | some s =>
    let s1 := s.erase entity_id
    if s1 = [] then aerase idx tag else ainsert idx tag s1

/-- Discard one removed entity's tags from the index, deleting a tag's
entry once its set becomes empty. -/
def discardTags (entity_id : ℕ) (idx : List (String × List ℕ)) (tags : List String) :
    List (String × List ℕ) :=
  tags.foldl (tagIndexDiscard entity_id) idx

/-- One pending removal: pop the id from the table (no-op when absent)
and discard the popped entity's tags from the index. -/
def flushRemoveOne (acc : List (ℕ × Entity) × List (String × List ℕ))
    (entity_id : ℕ) : List (ℕ × Entity) × List (String × List ℕ) :=
  let p := apop acc.1 entity_id
  match p.1 with
  | none => (p.2, acc.2)
  | some e => (p.2, discardTags entity_id acc.2 e.tags)

/-- `EntityManager._process_entity_removals`. -/
def processRemovals (m : EntityManager) : EntityManager :=
  let r := m.entities_to_remove.foldl flushRemoveOne (m.entities, m.tag_index)
  { m with entities := r.1, tag_index := r.2, entities_to_remove := [] }

/-- `EntityManager.update`, instrumented: also returns the list of ids on
which `entity.update(dt)` was invoked, in invocation order (the source
returns `None`; the trace only observes which calls happened). -/
def updateFull (m : EntityManager) (dt : ℚ) : EntityManager × List ℕ :=
  let m1 := m.processAdditions
  let snapshot := m1.entities.map Prod.fst
  let r := snapshot.foldl (updateStep dt) (m1.entities, m1.entities_to_remove, [])
  let m2 := { m1 with entities := r.1, entities_to_remove := r.2.1 }
  (m2.processRemovals, r.2.2)

/-- `EntityManager.update` proper. -/
def update (m : EntityManager) (dt : ℚ) : EntityManager := (m.updateFull dt).1

end EntityManager

/-- A public operation on the manager, as issued by collaborator code
between or during ticks.  `opAdd` models `EntityManager.add_entity` applied
to a freshly constructed entity (its uuid abstracted to the next counter
value); `opDestroy`, `opAddTag`, `opRemoveTag` mutate an entity currently
in the table, as gameplay code does through a held reference. -/
inductive Op : Type
  | opAdd (tags : List String) (active : Bool) (destroysOwner : Bool)
  | opRemove (entity_id : ℕ)
  | opUpdate (dt : ℚ)
  | opDestroy (entity_id : ℕ)
  | opAddTag (entity_id : ℕ) (tag : String)
  | opRemoveTag (entity_id : ℕ) (tag : String)
deriving DecidableEq, Repr

/-- Manager plus the uuid counter feeding freshly constructed entities. -/
structure World : Type where
  mgr : EntityManager := {}
  nextId : ℕ := 0
deriving DecidableEq, Repr

/-- Build the entity `opAdd` submits: `Entity()` then `add_tag` for each
tag, with one optional self-destroying behavior component attached. -/
def buildEntity (entity_id : ℕ) (tags : List String) (active destroysOwner : Bool) :
    Entity :=
  let e0 : Entity := { entity_id := entity_id, active := active }
  let e1 := if destroysOwner then
    e0.add_component { component_type := "behavior", data := .behavior true }
  else e0
  tags.foldl Entity.add_tag e1

/-- Mutate the table entry at an id, if present (gameplay code acting
through a reference it holds into the authoritative table). -/
def mutateEntity (m : EntityManager) (entity_id : ℕ) (f : Entity → Entity) :
    EntityManager :=
  match alookup m.entities entity_id with
  | none => m
  | some e => { m with entities := ainsert m.entities entity_id (f e) }

/-- One public operation. -/
def stepOp (w : World) : Op → World
  | .opAdd tags active destroysOwner =>
    { mgr := w.mgr.add_entity (buildEntity w.nextId tags active destroysOwner),
      nextId := w.nextId + 1 }
  | .opRemove entity_id => { w with mgr := w.mgr.remove_entity entity_id }
  | .opUpdate dt => { w with mgr := w.mgr.update dt }
  | .opDestroy entity_id =>
    { w with mgr := mutateEntity w.mgr entity_id fun e => (e.destroy).1 }
  | .opAddTag entity_id tag =>
    { w with mgr := mutateEntity w.mgr entity_id fun e => e.add_tag tag }
  | .opRemoveTag entity_id tag =>
    { w with mgr := mutateEntity w.mgr entity_id fun e => e.remove_tag tag }

/-- Run a sequence of public operations from the freshly constructed manager. -/
def applyOps (ops : List Op) : World := ops.foldl stepOp {}

/-- Whether an operation mutates a flushed-in entity's tag list. -/
def Op.isTagMutation : Op → Bool
  | .opAddTag _ _ => true
  | .opRemoveTag _ _ => true
  | _ => false

/-- The spec's tag-index/table consistency invariant: every indexed id is
in the table and carries the tag, and every tag carried by a table entity
is indexed to a set containing the entity's id. -/
def TagInvariant (m : EntityManager) : Prop :=
  (∀ p ∈ m.tag_index, ∀ entity_id ∈ p.2,
     ∃ e, alookup m.entities entity_id = some e ∧ p.1 ∈ e.tags) ∧
  (∀ q ∈ m.entities, ∀ tag ∈ q.2.tags,
     ∃ s, alookup m.tag_index tag = some s ∧ q.1 ∈ s)

instance (m : EntityManager) : Decidable (TagInvariant m) := by
  unfold TagInvariant; infer_instance

/-- CPython `int(x)` applied to a float: truncation toward zero. -/
def pyInt (q : ℚ) : ℤ := if 0 ≤ q then ⌊q⌋ else ⌈q⌉

/-- Python `range(lo, hi + 1)` over integers. -/
def intRange (lo hi : ℤ) : List ℤ :=
  (List.range (hi + 1 - lo).toNat).map fun (i : ℕ) => lo + (i : ℤ)

/-- A `pygame.Rect`: stores the four values truncated to integers. -/
structure PyRect : Type where
  x : ℤ
  y : ℤ
  w : ℤ
  h : ℤ
deriving DecidableEq, Repr

/-- Build a `pygame.Rect` from float arguments (each truncated toward zero). -/
def pyRect (x y w h : ℚ) : PyRect := ⟨pyInt x, pyInt y, pyInt w, pyInt h⟩

/-- `pygame.Rect.colliderect` (pygame 2): zero-sized rectangles collide
with nothing; otherwise strict interval overlap on both axes after
normalizing negative extents, so mere edge contact is not a collision. -/
def colliderect (A B : PyRect) : Bool :=
  if A.w = 0 || A.h = 0 || B.w = 0 || B.h = 0 then false
  else
    decide (min A.x (A.x + A.w) < max B.x (B.x + B.w)) &&
    decide (min A.y (A.y + A.h) < max B.y (B.y + B.h)) &&
    decide (max A.x (A.x + A.w) > min B.x (B.x + B.w)) &&
    decide (max A.y (A.y + A.h) > min B.y (B.y + B.h))

/-- `SpatialGrid` state (`spatial_grid.py`).  The debug counters
(`collision_checks` etc.) only feed `get_stats` and are not modelled. -/
structure SpatialGrid : Type where
  width : ℤ
  height : ℤ
  cell_size : ℤ
  cols : ℤ
  rows : ℤ
  grid : List ((ℤ × ℤ) × List Entity) := []
  entity_cells : List (ℕ × List (ℤ × ℤ)) := []
deriving DecidableEq, Repr

namespace SpatialGrid

/-- `SpatialGrid.__init__`: the source performs no validation; with
`cell_size = 0` the very first `width // cell_size` raises
`ZeroDivisionError`, and with any non-zero `cell_size` (negative included)
construction completes.  Python `//` is floor division (`Int.fdiv`). -/
def init (width height : ℤ) (cell_size : ℤ := 100) : Except String SpatialGrid :=
  if cell_size = 0 then .error "ZeroDivisionError"
  else .ok
    { width := width, height := height, cell_size := cell_size,
      cols := width.fdiv cell_size + 1, rows := height.fdiv cell_size + 1 }

/-- The grid cells overlapped by the bounding box `position ± extent/2`,
in the source's loop order (`int()` truncates toward zero, bounds clamped
to the grid's column/row ranges). -/
def cellsFor (g : SpatialGrid) (x y w h : ℚ) : List (ℤ × ℤ) :=
  let min_col := max 0 (pyInt ((x - w / 2) / (g.cell_size : ℚ)))
  let max_col := min (g.cols - 1) (pyInt ((x + w / 2) / (g.cell_size : ℚ)))
  let min_row := max 0 (pyInt ((y - h / 2) / (g.cell_size : ℚ)))
  let max_row := min (g.rows - 1) (pyInt ((y + h / 2) / (g.cell_size : ℚ)))
  (intRange min_col max_col).flatMap fun col =>
    (intRange min_row max_row).map fun row => (col, row)

/-- The update-loop body for one entity: skipped when inactive or when the
transform or collision component is absent; otherwise its id is recorded
with the exact cell set and the entity is appended to each such cell. -/
def insertEntity (g : SpatialGrid) (e : Entity) : SpatialGrid :=
  if !e.active then g
  else
    match e.get_component "transform", e.get_component "collision" with
    | some t, some c =>
      match t.data, c.data with
      | .transform x y, .collision w h =>
        let cells := g.cellsFor x y w h
        { g with
          entity_cells := ainsert g.entity_cells e.entity_id cells,
          grid := cells.foldl (fun gr ck =>
            match alookup gr ck with
            | none => ainsert gr ck [e]
            | some l => ainsert gr ck (l ++ [e])) g.grid }
      | _, _ => g
    | _, _ => g

/-- `SpatialGrid.update`: clear, then re-insert every entity. -/
def update (g : SpatialGrid) (entities : List Entity) : SpatialGrid :=
  entities.foldl insertEntity { g with grid := [], entity_cells := [] }

/-- `SpatialGrid.get_potential_collisions`: union the contents of the
cells recorded for the entity, excluding itself and inactive entities;
the Python `set` deduplication becomes `List.dedup`. -/
def get_potential_collisions (g : SpatialGrid) (e : Entity) : List Entity :=
  match alookup g.entity_cells e.entity_id with
  | none => []
  | some cells =>
    (cells.foldl (fun acc ck =>
      match alookup g.grid ck with
      | none => acc
      | some l => acc ++ l.filter fun o =>
          o.entity_id ≠ e.entity_id && o.active) []).dedup

/-- `SpatialGrid.check_collision`: AABB test through `pygame.Rect`;
`false` when either entity lacks a transform or collision component. -/
def check_collision (_g : SpatialGrid) (entity1 entity2 : Entity) : Bool :=
  match entity1.get_component "transform", entity1.get_component "collision",
        entity2.get_component "transform", entity2.get_component "collision" with
  | some t1, some c1, some t2, some c2 =>
    match t1.data, c1.data, t2.data, c2.data with
    | .transform x1 y1, .collision w1 h1, .transform x2 y2, .collision w2 h2 =>
      colliderect (pyRect (x1 - w1 / 2) (y1 - h1 / 2) w1 h1)
                  (pyRect (x2 - w2 / 2) (y2 - h2 / 2) w2 h2)
    | _, _, _, _ => false
  | _, _, _, _ => false

end SpatialGrid

/-- `ObjectPool` state (`object_pool.py`).  `factory_func` / `reset_func`
are construction-time closures; here the reset closure is passed to the
operations that apply it, and `reset_log` records each application of the
reset closure (newest first) so "reset ran exactly once" is observable. -/
structure ObjectPool (α : Type) : Type where
  active_objects : List α := []
  inactive_objects : List α := []
  peak_active_count : ℕ := 0
  total_created : ℤ := 0
  reset_log : List α := []

namespace ObjectPool

/-- `ObjectPool.release`: a no-op unless the object is currently a member
of the active list; otherwise remove it (first occurrence, as Python
`list.remove`), apply the reset closure, append to the inactive list. -/
def release {α : Type} [DecidableEq α] (reset : α → α) (p : ObjectPool α)
    (obj : α) : ObjectPool α :=
  if obj ∈ p.active_objects then
    { p with
      active_objects := p.active_objects.erase obj,
      inactive_objects := p.inactive_objects ++ [reset obj],
      reset_log := obj :: p.reset_log }
  else p

/-- `ObjectPool.release_all`: release every member of a snapshot copy of
the active list. -/
def release_all {α : Type} [DecidableEq α] (reset : α → α) (p : ObjectPool α) :
    ObjectPool α :=
  p.active_objects.foldl (release reset) p

end ObjectPool

/-- An `ObjectPool` whose objects are abstracted to identity tokens, plus
the factory's fresh-token counter; the reset closure preserves identity.
This is the instantiation the generic pool claims quantify over. -/
structure PoolWorld : Type where
  pool : ObjectPool ℕ := {}
  next_obj : ℕ := 0

namespace PoolWorld

/-- `ObjectPool.__init__`: pre-populate with `initial_size` factory calls
(`range` of a negative count is empty) and set `total_created` to
`initial_size` unconditionally. -/
def init (initial_size : ℤ := 10) : PoolWorld :=
  { pool := { inactive_objects := List.range initial_size.toNat,
              total_created := initial_size },
    next_obj := initial_size.toNat }

/-- `ObjectPool.get`: pop the newest inactive object, or create a fresh
one when none is available; append to active and track the peak. -/
def get (w : PoolWorld) : ℕ × PoolWorld :=
  if w.pool.inactive_objects.isEmpty then
    let obj := w.next_obj
    let active := w.pool.active_objects ++ [obj]
    (obj,
     { pool := { w.pool with
                 total_created := w.pool.total_created + 1,
                 active_objects := active,
                 peak_active_count := max w.pool.peak_active_count active.length },
       next_obj := w.next_obj + 1 })
  else
    let obj := (w.pool.inactive_objects.getLast?).getD 0
    let active := w.pool.active_objects ++ [obj]
    (obj,
     { w with pool := { w.pool with
                        inactive_objects := w.pool.inactive_objects.dropLast,
                        active_objects := active,
                        peak_active_count := max w.pool.peak_active_count active.length } })

end PoolWorld

/-- A client call on a token pool: `get()`, `release(obj)` with an
arbitrary object (vended or not), or `release_all()`. -/
inductive PoolOp : Type
  | pget
  | prelease (obj : ℕ)
  | preleaseAll
deriving DecidableEq, Repr

/-- Apply one pool call (reset preserves token identity). -/
def stepPoolOp (w : PoolWorld) : PoolOp → PoolWorld
  | .pget => (w.get).2
  | .prelease obj => { w with pool := w.pool.release id obj }
  | .preleaseAll => { w with pool := w.pool.release_all id }

/-- Run a call sequence against a pool constructed with `initial_size`. -/
def applyPoolOps (initial_size : ℤ) (ops : List PoolOp) : PoolWorld :=
  ops.foldl stepPoolOp (PoolWorld.init initial_size)

/-- `ProjectilePool`: one `ObjectPool` of entities per ink color. -/
structure ProjectilePool : Type where
  pools : List (String × ObjectPool Entity) := []

namespace ProjectilePool

/-- `ProjectilePool._reset_projectile`: park the transform off-screen,
zero the physics velocity, deactivate. -/
def reset_projectile (projectile : Entity) : Entity :=
  let e1 := match projectile.get_component "transform" with
    | some c =>
      { projectile with components := (ainsert projectile.components "transform"
          { c with data := (match c.data with
            | .transform _ _ => .transform (-1000) (-1000)
            | d => d) }) }
    | none => projectile
  let e2 := match e1.get_component "physics" with
    | some c =>
      { e1 with components := (ainsert e1.components "physics"
          { c with data := (match c.data with
            | .physics _ _ => .physics 0 0
            | d => d) }) }
    | none => e1
  { e2 with active := false }

/-- `ProjectilePool.release_projectile`: resolve the sub-pool from the
object's own `ink_slime` component; when that component is absent the
`if ink_component:` guard fails and nothing at all happens.  A missing
`"dark_blue"` fallback pool would raise `KeyError` in the source, and a
component under the `"ink_slime"` key without an `ink_color` field would
raise `AttributeError`; both are modelled as errors. -/
def release_projectile (pp : ProjectilePool) (projectile : Entity) :
    Except String ProjectilePool :=
  match projectile.get_component "ink_slime" with
  | none => .ok pp
  | some c =>
    match c.data with
    | .inkSlime color =>
      match alookup pp.pools color with
      | some p =>
        .ok { pools := ainsert pp.pools color (p.release reset_projectile projectile) }
      | none =>
        match alookup pp.pools "dark_blue" with
        | some p =>
          .ok { pools := ainsert pp.pools "dark_blue" (p.release reset_projectile projectile) }
        | none => .error "KeyError"
    | _ => .error "AttributeError"

end ProjectilePool

/-- Structural well-formedness of a reachable world: table keys match the
stored entities' ids and are duplicate-free, all ids were vended by the
uuid counter, and pending additions carry fresh, pairwise-distinct ids. -/
def StructInv (w : World) : Prop :=
  (∀ p ∈ w.mgr.entities, p.2.entity_id = p.1 ∧ p.1 < w.nextId) ∧
  (w.mgr.entities.map Prod.fst).Nodup ∧
  (∀ a ∈ w.mgr.entities_to_add, a.entity_id < w.nextId) ∧
  (w.mgr.entities_to_add.map Entity.entity_id).Nodup ∧
  (∀ a ∈ w.mgr.entities_to_add, alookup w.mgr.entities a.entity_id = none)

/-- Open-interval overlap on both axes of the rectangles
`position ± extent/2` — stated from the claim's words, to be compared
against `SpatialGrid.check_collision`. -/
def openBoxesOverlap (x1 y1 w1 h1 x2 y2 w2 h2 : ℚ) : Prop :=
  x1 - w1 / 2 < x2 + w2 / 2 ∧ x2 - w2 / 2 < x1 + w1 / 2 ∧
  y1 - h1 / 2 < y2 + h2 / 2 ∧ y2 - h2 / 2 < y1 + h1 / 2

/-- Closed bounding-box overlap (the boxes share at least one point). -/
def closedBoxesOverlap (x1 y1 w1 h1 x2 y2 w2 h2 : ℚ) : Prop :=
  x1 - w1 / 2 ≤ x2 + w2 / 2 ∧ x2 - w2 / 2 ≤ x1 + w1 / 2 ∧
  y1 - h1 / 2 ≤ y2 + h2 / 2 ∧ y2 - h2 / 2 ≤ y1 + h1 / 2

/-- The bounding box lies inside the world rectangle the grid covers. -/
def boxInBounds (g : SpatialGrid) (x y w h : ℚ) : Prop :=
  0 ≤ x - w / 2 ∧ x + w / 2 ≤ (g.width : ℚ) ∧
  0 ≤ y - h / 2 ∧ y + h / 2 ≤ (g.height : ℚ)

/-- The transform position and collision extents of an entity, when both
components are present with their source-shaped payloads. -/
def boxOf (e : Entity) : Option (ℚ × ℚ × ℚ × ℚ) :=
  match e.get_component "transform", e.get_component "collision" with
  | some t, some c =>
    match t.data, c.data with
    | .transform x y, .collision w h => some (x, y, w, h)
    | _, _ => none
  | _, _ => none

/-- A bare entity with a transform and a collision component, as the
entity factory assembles movable collidable objects. -/
def testBoxEntity (entity_id : ℕ) (x y w h : ℚ) : Entity :=
  (({ entity_id := entity_id } : Entity).add_component
      { component_type := "transform", data := .transform x y }).add_component
    { component_type := "collision", data := .collision w h }

/-- An ink-slime projectile as `EntityFactory.create_ink_slime` assembles
it (the components relevant to the pool layer). -/
def testInkProjectile : Entity :=
  ((testBoxEntity 3 0 0 10 10).add_component
      { component_type := "physics", data := .physics 0 0 }).add_component
    { component_type := "ink_slime", data := .inkSlime "purple" }

/-- The cell-insertion step of `SpatialGrid.update`'s inner loop, named:
append the entity to the bucket of one cell key (creating the bucket when
absent).  `insertEntity`'s grid fold is definitionally a fold of this. -/
def gridAdd (e : Entity) (gr : List ((ℤ × ℤ) × List Entity)) (ck : ℤ × ℤ) :
    List ((ℤ × ℤ) × List Entity) :=
  match alookup gr ck with
  | none => ainsert gr ck [e]
  | some l => ainsert gr ck (l ++ [e])

/-- The accumulation step of `get_potential_collisions`, named: append the
filtered bucket of one cell key. -/
def cellScan (gr : List ((ℤ × ℤ) × List Entity)) (p : Entity → Bool)
    (acc : List Entity) (ck : ℤ × ℤ) : List Entity :=
  match alookup gr ck with
  | none => acc
  | some l => acc ++ l.filter p

/-- Consistency of the grid buckets with the per-entity cell record: every
entity stored in a bucket has its id mapped to a cell list containing that
bucket's key.  This is the invariant `SpatialGrid.update` establishes. -/
def CellsOK (S : SpatialGrid) : Prop :=
  ∀ ck l, alookup S.grid ck = some l → ∀ e ∈ l,
    ∃ cells, alookup S.entity_cells e.entity_id = some cells ∧ ck ∈ cells

/-- The grid the game constructs: an 800×600 world with 100-pixel cells
(`SpatialGrid.init 800 600 100` succeeds with `cols = 9`, `rows = 7`). -/
def testGrid : SpatialGrid :=
  { width := 800, height := 600, cell_size := 100, cols := 9, rows := 7 }

/-! ### Association-list and set lemmas -/

theorem alookup_ainsert {κ β : Type} [DecidableEq κ] (l : List (κ × β))
    (k : κ) (v : β) (k2 : κ) :
    alookup (ainsert l k v) k2 = if k = k2 then some v else alookup l k2 := by
  induction l with
  | nil => simp [ainsert, alookup]
  | cons p rest ih =>
    obtain ⟨pk, pv⟩ := p
    by_cases hpk : pk = k
    · subst hpk
      simp only [ainsert, if_pos rfl, alookup]
      by_cases hk2 : pk = k2 <;> simp [hk2]
    · simp only [ainsert, if_neg hpk, alookup, ih]
      by_cases hpk2 : pk = k2
      · subst hpk2
        simp [Ne.symm hpk]
      · simp [hpk2]

theorem alookup_ainsert_self {κ β : Type} [DecidableEq κ] (l : List (κ × β))
    (k : κ) (v : β) : alookup (ainsert l k v) k = some v := by
  simp [alookup_ainsert]

theorem alookup_ainsert_ne {κ β : Type} [DecidableEq κ] (l : List (κ × β))
    (k : κ) (v : β) (k2 : κ) (h : k ≠ k2) :
    alookup (ainsert l k v) k2 = alookup l k2 := by
  simp [alookup_ainsert, h]

theorem apop_fst {κ β : Type} [DecidableEq κ] (l : List (κ × β)) (k : κ) :
    (apop l k).1 = alookup l k := by
  induction l with
  | nil => simp [apop, alookup]
  | cons p rest ih =>
    obtain ⟨pk, pv⟩ := p
    by_cases hpk : pk = k <;> simp [apop, alookup, hpk, ih]

theorem alookup_apop_ne {κ β : Type} [DecidableEq κ] (l : List (κ × β))
    (k k2 : κ) (h : k ≠ k2) :
    alookup (apop l k).2 k2 = alookup l k2 := by
  induction l with
  | nil => simp [apop]
  | cons p rest ih =>
    obtain ⟨pk, pv⟩ := p
    by_cases hpk : pk = k
    · subst hpk
      have hstep : apop ((pk, pv) :: rest) pk = (some pv, rest) := by simp [apop]
      rw [hstep]
      simp [alookup, h]
    · simp [apop, hpk, alookup, ih]

theorem keys_ainsert {κ β : Type} [DecidableEq κ] (l : List (κ × β))
    (k : κ) (v : β) :
    (ainsert l k v).map Prod.fst =
      if k ∈ l.map Prod.fst then l.map Prod.fst else l.map Prod.fst ++ [k] := by
  induction l with
  | nil => simp [ainsert]
  | cons p rest ih =>
    obtain ⟨pk, pv⟩ := p
    by_cases hpk : pk = k
    · subst hpk; simp [ainsert]
    · simp only [ainsert, if_neg hpk, List.map_cons, ih]
      by_cases hk : k ∈ rest.map Prod.fst
      · simp [hk, Ne.symm hpk]
      · simp [hk, Ne.symm hpk]

theorem keys_apop {κ β : Type} [DecidableEq κ] (l : List (κ × β)) (k : κ) :
    ((apop l k).2).map Prod.fst = (l.map Prod.fst).erase k := by
  induction l with
  | nil => simp [apop]
  | cons p rest ih =>
    obtain ⟨pk, pv⟩ := p
    by_cases hpk : pk = k
    · subst hpk; simp [apop, List.erase_cons_head]
    · simp [apop, hpk, List.erase_cons_tail, ih,
        (by simpa using hpk : ¬(pk == k) = true)]

theorem alookup_eq_none_iff {κ β : Type} [DecidableEq κ] (l : List (κ × β))
    (k : κ) : alookup l k = none ↔ k ∉ l.map Prod.fst := by
  induction l with
  | nil => simp [alookup]
  | cons p rest ih =>
    obtain ⟨pk, pv⟩ := p
    by_cases hpk : pk = k
    · subst hpk; simp [alookup]
    · simp [alookup, hpk, ih, Ne.symm hpk]

theorem alookup_isSome_iff {κ β : Type} [DecidableEq κ] (l : List (κ × β))
    (k : κ) : (alookup l k).isSome ↔ k ∈ l.map Prod.fst := by
  rcases h : alookup l k with _ | v
  · simpa [h] using (alookup_eq_none_iff l k).1 h
  · simp only [Option.isSome_some, true_iff]
    by_contra hk
    rw [(alookup_eq_none_iff l k).2 hk] at h
    exact Option.noConfusion h

theorem alookup_mem {κ β : Type} [DecidableEq κ] {l : List (κ × β)} {k : κ}
    {v : β} (h : alookup l k = some v) : (k, v) ∈ l := by
  induction l with
  | nil => simp [alookup] at h
  | cons p rest ih =>
    obtain ⟨pk, pv⟩ := p
    by_cases hpk : pk = k
    · subst hpk
      have hstep : alookup ((pk, pv) :: rest) pk = some pv := by simp [alookup]
      rw [hstep] at h
      injection h with hpv
      subst hpv; exact List.mem_cons_self _ _
    · simp only [alookup, if_neg hpk] at h
      exact List.mem_cons_of_mem _ (ih h)

theorem alookup_apop_self {κ β : Type} [DecidableEq κ] (l : List (κ × β))
    (k : κ) (h : (l.map Prod.fst).Nodup) : alookup (apop l k).2 k = none := by
  rw [alookup_eq_none_iff, keys_apop]
  intro hm
  exact ((List.Nodup.mem_erase_iff h).1 hm).1 rfl

theorem alookup_aerase_ne {κ β : Type} [DecidableEq κ] (l : List (κ × β))
    (k k2 : κ) (h : k ≠ k2) :
    alookup (aerase l k) k2 = alookup l k2 := by
  induction l with
  | nil => simp [aerase]
  | cons p rest ih =>
    obtain ⟨pk, pv⟩ := p
    by_cases hpk : pk = k
    · subst hpk
      have hstep : aerase ((pk, pv) :: rest) pk = rest := by simp [aerase]
      rw [hstep]
      simp [alookup, h]
    · simp [aerase, hpk, alookup, ih]

theorem mem_setAdd {α : Type} [DecidableEq α] (l : List α) (a b : α) :
    a ∈ setAdd l b ↔ a = b ∨ a ∈ l := by
  unfold setAdd
  by_cases hb : b ∈ l
  · simp only [if_pos hb]
    constructor
    · exact Or.inr
    · rintro (rfl | h) <;> [exact hb; exact h]
  · simp [if_neg hb, List.mem_append, or_comm]

/-! ### C8 — grid construction with malformed cell size -/

/-- C8 counterexample: `SpatialGrid(800, 600, -100)` does **not** fail at
construction — Python floor division by a negative is defined, so the
constructor returns a (degenerate) grid, refuting "zero **or negative**
cell size fails at construction". -/
theorem c8_counterexample :
    SpatialGrid.init 800 600 (-100) =
      Except.ok { width := 800, height := 600, cell_size := -100,
                  cols := -7, rows := -5 } := rfl

/-- C8 (amended): a zero cell size is fatal at construction — the first
`width // cell_size` raises `ZeroDivisionError` — but a negative cell size
is not validated and yields a constructed grid. -/
theorem c8_zero_cell_size_fatal (width height cell_size : ℤ) :
    (cell_size = 0 →
      SpatialGrid.init width height cell_size = .error "ZeroDivisionError") ∧
    (cell_size ≠ 0 → ∃ g, SpatialGrid.init width height cell_size = .ok g) := by
  constructor
  · intro h; simp [SpatialGrid.init, h]
  · intro h
    refine ⟨{ width := width, height := height, cell_size := cell_size,
              cols := width.fdiv cell_size + 1,
              rows := height.fdiv cell_size + 1 }, ?_⟩
    simp [SpatialGrid.init, h]

/-- Witness for `c8_zero_cell_size_fatal` at cell sizes `0` and `-100`. -/
theorem c8_zero_cell_size_fatal_witness :
    (SpatialGrid.init 800 600 0 = .error "ZeroDivisionError") ∧
    (∃ g, SpatialGrid.init 800 600 (-100) = .ok g) :=
  ⟨(c8_zero_cell_size_fatal 800 600 0).1 rfl,
   (c8_zero_cell_size_fatal 800 600 (-100)).2 (by decide)⟩

/-! ### C10 — release_projectile without the discriminator component -/

/-- C10: when the object carries no `ink_slime` component the
`if ink_component:` guard fails, so `release_projectile` returns with
every sub-pool untouched (the whole pool table is unchanged). -/
theorem c10_release_requires_discriminator (pp : ProjectilePool)
    (projectile : Entity)
    (h : projectile.get_component "ink_slime" = none) :
    pp.release_projectile projectile = .ok pp := by
  unfold ProjectilePool.release_projectile
  rw [h]

/-- Witness for `c10_release_requires_discriminator`: a projectile whose
components were cleared by `destroy()` is silently not returned to the
(non-empty) pool table. -/
theorem c10_release_requires_discriminator_witness :
    ((testInkProjectile.destroy).1.get_component "ink_slime" = none) ∧
    ProjectilePool.release_projectile { pools := [("dark_blue", {})] }
        (testInkProjectile.destroy).1 =
      .ok { pools := [("dark_blue", {})] } :=
  ⟨rfl, c10_release_requires_discriminator _ _ rfl⟩

/-! ### C6 — component back-references after destroy -/

/-- C6 (code bug): `Entity.destroy` fires `on_remove` for each component
and clears the map but never assigns `component.entity = None`, so the
detached component still points at entity `7`; `remove_component`, by
contrast, does clear the back-reference (`some none` below is "component
returned, back-reference cleared"). -/
theorem c6_destroy_leaves_backref_dangling :
    ((((({ entity_id := 7 } : Entity).add_component
          { component_type := "shield", data := .plain }).destroy).2).map
        Component.entity = [some 7]) ∧
    ((((({ entity_id := 7 } : Entity).add_component
          { component_type := "shield", data := .plain }).remove_component
            "shield").2).map Component.entity = some none) :=
  ⟨rfl, rfl⟩

/-! ### C7 — pool get/release/get round trip -/

/-- `ObjectPool.release` on a current member of the active list. -/
theorem release_active_eq (p : ObjectPool ℕ) (obj : ℕ)
    (h : obj ∈ p.active_objects) :
    p.release id obj =
      { p with active_objects := p.active_objects.erase obj,
               inactive_objects := p.inactive_objects ++ [obj],
               reset_log := obj :: p.reset_log } := by
  simp [ObjectPool.release, h]

/-- `ObjectPool.get` puts the returned object into the active list and
never applies the reset closure. -/
theorem get_spec (w : PoolWorld) :
    (w.get).1 ∈ ((w.get).2).pool.active_objects ∧
    ((w.get).2).pool.reset_log = w.pool.reset_log := by
  by_cases hemp : w.pool.inactive_objects.isEmpty = true <;>
    simp [PoolWorld.get, hemp]

/-- `ObjectPool.get` pops the most recently released object first. -/
theorem get_after_append (w : PoolWorld) (l : List ℕ) (obj : ℕ)
    (h : w.pool.inactive_objects = l ++ [obj]) :
    (w.get).1 = obj ∧ ((w.get).2).pool.reset_log = w.pool.reset_log := by
  have hne : w.pool.inactive_objects.isEmpty = false := by simp [h]
  simp [PoolWorld.get, hne, h]

/-- C7: `get()` obtaining `obj`, then `release(obj)`, then `get()` again
returns the same object identity, the release applies the reset closure
exactly once (the log grows by exactly `obj`), and neither `get` applies
it. -/
theorem c7_pool_round_trip (w : PoolWorld) :
    ((({ (w.get).2 with
         pool := ((w.get).2).pool.release id (w.get).1 } : PoolWorld).get).1
       = (w.get).1) ∧
    ((w.get).2).pool.reset_log = w.pool.reset_log ∧
    ({ (w.get).2 with
       pool := ((w.get).2).pool.release id (w.get).1 } : PoolWorld).pool.reset_log
       = (w.get).1 :: ((w.get).2).pool.reset_log ∧
    ((({ (w.get).2 with
         pool := ((w.get).2).pool.release id (w.get).1 } : PoolWorld).get).2).pool.reset_log
       = ({ (w.get).2 with
            pool := ((w.get).2).pool.release id (w.get).1 } : PoolWorld).pool.reset_log := by
  obtain ⟨hmem, hlog⟩ := get_spec w
  have hrel := release_active_eq ((w.get).2).pool (w.get).1 hmem
  have hsecond := get_after_append
    ({ (w.get).2 with pool := ((w.get).2).pool.release id (w.get).1 } : PoolWorld)
    ((w.get).2).pool.inactive_objects (w.get).1 (by rw [hrel])
  refine ⟨hsecond.1, hlog, ?_, hsecond.2⟩
  rw [hrel]

/-! ### C9 — pool object conservation -/

/-- `release` preserves `len(active) + len(inactive) = total_created`:
it either moves one object between the lists or does nothing. -/
theorem release_conserved (p : ObjectPool ℕ) (reset : ℕ → ℕ) (obj : ℕ)
    (h : (p.active_objects.length : ℤ) + p.inactive_objects.length
        = p.total_created) :
    (((p.release reset obj).active_objects.length : ℤ) +
        (p.release reset obj).inactive_objects.length
      = (p.release reset obj).total_created) := by
  unfold ObjectPool.release
  by_cases hm : obj ∈ p.active_objects
  · have h1 : 0 < p.active_objects.length := List.length_pos_of_mem hm
    have hlen : (p.active_objects.erase obj).length
        = p.active_objects.length - 1 := List.length_erase_of_mem hm
    simp only [if_pos hm, List.length_append, List.length_singleton, hlen]
    omega
  · simp only [if_neg hm]; exact h

/-- Iterated `release` (the body of `release_all`) preserves conservation. -/
theorem foldl_release_conserved (reset : ℕ → ℕ) (l : List ℕ) (p : ObjectPool ℕ)
    (h : (p.active_objects.length : ℤ) + p.inactive_objects.length
        = p.total_created) :
    (((l.foldl (ObjectPool.release reset) p).active_objects.length : ℤ) +
        (l.foldl (ObjectPool.release reset) p).inactive_objects.length
      = (l.foldl (ObjectPool.release reset) p).total_created) := by
  induction l generalizing p with
  | nil => simpa using h
  | cons a t ih => exact ih _ (release_conserved _ reset a h)

/-- `get` preserves conservation: either a fresh object is created and
counted, or one object moves from inactive to active. -/
theorem get_conserved (w : PoolWorld)
    (h : (w.pool.active_objects.length : ℤ) + w.pool.inactive_objects.length
        = w.pool.total_created) :
    ((((w.get).2).pool.active_objects.length : ℤ) +
        ((w.get).2).pool.inactive_objects.length
      = ((w.get).2).pool.total_created) := by
  by_cases hemp : w.pool.inactive_objects.isEmpty = true
  · simp only [PoolWorld.get, hemp, if_true, List.length_append,
      List.length_singleton]
    push_cast
    omega
  · have hne : w.pool.inactive_objects ≠ [] := by
      intro hnil; rw [hnil] at hemp; simp at hemp
    have h1 : 0 < w.pool.inactive_objects.length := List.length_pos.mpr hne
    simp only [PoolWorld.get, hemp, if_false, Bool.false_eq_true,
      List.length_append, List.length_singleton, List.length_dropLast]
    push_cast
    omega

/-- C9 counterexample: a pool constructed with `initial_size = -1` starts
with zero active and zero inactive objects but `total_created = -1`, so
the conservation equation fails in a reachable (initial) state. -/
theorem c9_counterexample :
    ¬((((applyPoolOps (-1) []).pool.active_objects.length : ℤ) +
        (applyPoolOps (-1) []).pool.inactive_objects.length)
      = (applyPoolOps (-1) []).pool.total_created) := by decide

/-- C9 (amended): for every **nonnegative** initial size, every state
reachable by any sequence of `get` / `release(obj)` (vended or foreign
object) / `release_all` calls satisfies
`len(active) + len(inactive) = total_created`. -/
theorem c9_conservation (initial_size : ℤ) (h0 : 0 ≤ initial_size)
    (ops : List PoolOp) :
    (((applyPoolOps initial_size ops).pool.active_objects.length : ℤ) +
        (applyPoolOps initial_size ops).pool.inactive_objects.length
      = (applyPoolOps initial_size ops).pool.total_created) := by
  have hinit : (((PoolWorld.init initial_size).pool.active_objects.length : ℤ) +
      (PoolWorld.init initial_size).pool.inactive_objects.length
    = (PoolWorld.init initial_size).pool.total_created) := by
    simp [PoolWorld.init, Int.toNat_of_nonneg h0]
  have main : ∀ (l : List PoolOp) (w : PoolWorld),
      ((w.pool.active_objects.length : ℤ) + w.pool.inactive_objects.length
        = w.pool.total_created) →
      (((l.foldl stepPoolOp w).pool.active_objects.length : ℤ) +
          (l.foldl stepPoolOp w).pool.inactive_objects.length
        = (l.foldl stepPoolOp w).pool.total_created) := by
    intro l
    induction l with
    | nil => intro w h; exact h
    | cons op t ih =>
      intro w h
      refine ih _ ?_
      cases op with
      | pget => exact get_conserved w h
      | prelease obj => exact release_conserved _ id obj h
      | preleaseAll => exact foldl_release_conserved id _ _ h
  exact main ops _ hinit

/-- Witness for `c9_conservation`: initial size 2 with a call sequence
that exercises creation, reuse, a foreign-object release, and
`release_all`. -/
theorem c9_conservation_witness :
    ((0 : ℤ) ≤ 2) ∧
    (((applyPoolOps 2 [.pget, .pget, .pget, .prelease 1, .prelease 99,
          .preleaseAll]).pool.active_objects.length : ℤ) +
        (applyPoolOps 2 [.pget, .pget, .pget, .prelease 1, .prelease 99,
          .preleaseAll]).pool.inactive_objects.length
      = (applyPoolOps 2 [.pget, .pget, .pget, .prelease 1, .prelease 99,
          .preleaseAll]).pool.total_created) :=
  ⟨by decide,
   c9_conservation 2 (by decide)
     [.pget, .pget, .pget, .prelease 1, .prelease 99, .preleaseAll]⟩

/-! ### C1 — deferred add visibility -/

/-- Merging an unrelated tag never removes an id from a tag's index set. -/
theorem tagIndexAdd_keeps (entity_id : ℕ) (idx : List (String × List ℕ))
    (tag2 t : String)
    (h : ∃ s, alookup idx t = some s ∧ entity_id ∈ s) :
    ∃ s, alookup (EntityManager.tagIndexAdd entity_id idx tag2) t = some s ∧ entity_id ∈ s := by
  obtain ⟨s, hs, hmem⟩ := h
  by_cases ht2 : tag2 = t
  · subst ht2
    simp only [EntityManager.tagIndexAdd, hs]
    exact ⟨setAdd s entity_id, alookup_ainsert_self _ _ _,
      (mem_setAdd _ _ _).2 (Or.inr hmem)⟩
  · rcases hl : alookup idx tag2 with _ | s2 <;> simp only [EntityManager.tagIndexAdd, hl]
    · exact ⟨s, by rw [alookup_ainsert_ne _ _ _ _ ht2]; exact hs, hmem⟩
    · exact ⟨s, by rw [alookup_ainsert_ne _ _ _ _ ht2]; exact hs, hmem⟩

/-- Folding tag merges keeps an established index membership. -/
theorem tagfold_add_keeps (entity_id : ℕ) (tags : List String)
    (idx : List (String × List ℕ)) (t : String)
    (h : ∃ s, alookup idx t = some s ∧ entity_id ∈ s) :
    ∃ s, alookup (tags.foldl (EntityManager.tagIndexAdd entity_id) idx) t = some s ∧
      entity_id ∈ s := by
  induction tags generalizing idx with
  | nil => exact h
  | cons tag2 rest ih =>
    rw [List.foldl_cons]
    exact ih _ (tagIndexAdd_keeps _ _ _ _ h)

/-- After merging an entity's tags, each of those tags indexes its id. -/
theorem tagfold_add_mem (entity_id : ℕ) (tags : List String)
    (idx : List (String × List ℕ)) (t : String) (h : t ∈ tags) :
    ∃ s, alookup (tags.foldl (EntityManager.tagIndexAdd entity_id) idx) t = some s ∧
      entity_id ∈ s := by
  induction tags generalizing idx with
  | nil => cases h
  | cons tag2 rest ih =>
    rw [List.foldl_cons]
    rcases List.mem_cons.1 h with rfl | hrest
    · refine tagfold_add_keeps _ _ _ _ ?_
      rcases hl : alookup idx t with _ | s2 <;> simp only [EntityManager.tagIndexAdd, hl]
      · exact ⟨[entity_id], alookup_ainsert_self _ _ _, by simp⟩
      · exact ⟨setAdd s2 entity_id, alookup_ainsert_self _ _ _,
          (mem_setAdd _ _ _).2 (Or.inl rfl)⟩
    · exact ih _ hrest

/-- After the add flush, the entity submitted last is in the table under
its id. -/
theorem flush_lookup_self (m : EntityManager) (E : Entity) :
    alookup ((m.add_entity E).processAdditions).entities E.entity_id = some E := by
  show alookup ((m.entities_to_add ++ [E]).foldl EntityManager.flushAddOne
    (m.entities, m.tag_index)).1 E.entity_id = some E
  rw [List.foldl_append]
  simp [EntityManager.flushAddOne, alookup_ainsert_self]

/-- After the add flush, each tag of the entity submitted last indexes
its id. -/
theorem flush_index_mem (m : EntityManager) (E : Entity) (t : String)
    (ht : t ∈ E.tags) :
    ∃ s, alookup ((m.add_entity E).processAdditions).tag_index t = some s ∧
      E.entity_id ∈ s := by
  show ∃ s, alookup ((m.entities_to_add ++ [E]).foldl EntityManager.flushAddOne
    (m.entities, m.tag_index)).2 t = some s ∧ E.entity_id ∈ s
  rw [List.foldl_append]
  simp only [List.foldl_cons, List.foldl_nil]
  exact tagfold_add_mem _ _ _ _ ht

/-- One update-pass step neither dislodges a live, non-self-destructing
entity from the table nor enqueues it for removal. -/
theorem updateStep_keeps (dt : ℚ) (E : Entity)
    (hsd : E.selfDestructs = false) (hmark : E.marked_for_destruction = false)
    (acc : List (ℕ × Entity) × List ℕ × List ℕ) (id' : ℕ)
    (hlook : alookup acc.1 E.entity_id = some E)
    (hq : E.entity_id ∉ acc.2.1) :
    alookup (EntityManager.updateStep dt acc id').1 E.entity_id = some E ∧
      E.entity_id ∉ (EntityManager.updateStep dt acc id').2.1 := by
  unfold EntityManager.updateStep
  by_cases hid : id' = E.entity_id
  · subst hid
    have hupd : E.update dt = E := by
      unfold Entity.update
      cases hA : E.active <;> simp [hA, hsd]
    simp only [hlook]
    cases hA : (E.active && !E.marked_for_destruction) <;>
      simp [hA, hupd, hmark, alookup_ainsert_self, hq]
  · rcases hl : alookup acc.1 id' with _ | e
    · simp only [hl]; exact ⟨hlook, hq⟩
    · simp only [hl]
      have hnotin : ∀ (b : Bool) (q : List ℕ) (x y : ℕ), x ∉ q → x ≠ y →
          x ∉ (if b = true then q ++ [y] else q) := by
        intro b q x y hx hxy
        cases b
        · simpa using hx
        · simp [List.mem_append, hx, hxy]
      refine ⟨?_, ?_⟩
      · rw [alookup_ainsert_ne _ _ _ _ hid]
        exact hlook
      · exact hnotin _ _ _ _ hq (fun h => hid h.symm)

/-- The whole update pass keeps a live, non-self-destructing entity in the
table and off the removal queue. -/
theorem updatePass_keeps (dt : ℚ) (E : Entity)
    (hsd : E.selfDestructs = false) (hmark : E.marked_for_destruction = false)
    (ids : List ℕ) (acc : List (ℕ × Entity) × List ℕ × List ℕ)
    (hlook : alookup acc.1 E.entity_id = some E)
    (hq : E.entity_id ∉ acc.2.1) :
    alookup (ids.foldl (EntityManager.updateStep dt) acc).1 E.entity_id = some E ∧
      E.entity_id ∉ (ids.foldl (EntityManager.updateStep dt) acc).2.1 := by
  induction ids generalizing acc with
  | nil => exact ⟨hlook, hq⟩
  | cons id' rest ih =>
    rw [List.foldl_cons]
    obtain ⟨h1, h2⟩ := updateStep_keeps dt E hsd hmark acc id' hlook hq
    exact ih _ h1 h2

/-- Discarding a *different* entity's membership in a tag keeps an
established index membership. -/
theorem tagIndexDiscard_keeps (id2 eid : ℕ) (hne : id2 ≠ eid)
    (idx : List (String × List ℕ)) (tag2 t : String)
    (h : ∃ s, alookup idx t = some s ∧ eid ∈ s) :
    ∃ s, alookup (EntityManager.tagIndexDiscard id2 idx tag2) t = some s ∧ eid ∈ s := by
  obtain ⟨s, hs, hmem⟩ := h
  by_cases ht2 : tag2 = t
  · subst ht2
    simp only [EntityManager.tagIndexDiscard, hs]
    have hmem1 : eid ∈ s.erase id2 := by
      rw [List.mem_erase_of_ne (Ne.symm hne)]
      exact hmem
    have hnil : ¬(s.erase id2 = []) := by
      intro hcontra; rw [hcontra] at hmem1; cases hmem1
    rw [if_neg hnil]
    exact ⟨s.erase id2, alookup_ainsert_self _ _ _, hmem1⟩
  · rcases hl : alookup idx tag2 with _ | s2 <;> simp only [EntityManager.tagIndexDiscard, hl]
    · exact ⟨s, hs, hmem⟩
    · split
      · exact ⟨s, by rw [alookup_aerase_ne _ _ _ ht2]; exact hs, hmem⟩
      · exact ⟨s, by rw [alookup_ainsert_ne _ _ _ _ ht2]; exact hs, hmem⟩

/-- Discarding all of a different entity's tags keeps an established index
membership. -/
theorem discardTags_keeps (id2 eid : ℕ) (hne : id2 ≠ eid)
    (tags : List String) (idx : List (String × List ℕ)) (t : String)
    (h : ∃ s, alookup idx t = some s ∧ eid ∈ s) :
    ∃ s, alookup (EntityManager.discardTags id2 idx tags) t = some s ∧ eid ∈ s := by
  unfold EntityManager.discardTags
  induction tags generalizing idx with
  | nil => exact h
  | cons tag2 rest ih =>
    rw [List.foldl_cons]
    exact ih _ (tagIndexDiscard_keeps _ _ hne _ _ _ h)

/-- Flushing the removal of a different id keeps an entity's table entry
and index memberships. -/
theorem flushRemoveOne_keeps (eid : ℕ) (E : Entity) (t : String)
    (acc : List (ℕ × Entity) × List (String × List ℕ)) (id2 : ℕ)
    (hne : id2 ≠ eid)
    (hlook : alookup acc.1 eid = some E)
    (hidx : ∃ s, alookup acc.2 t = some s ∧ eid ∈ s) :
    alookup (EntityManager.flushRemoveOne acc id2).1 eid = some E ∧
      ∃ s, alookup (EntityManager.flushRemoveOne acc id2).2 t = some s ∧ eid ∈ s := by
  unfold EntityManager.flushRemoveOne
  have htab : alookup (apop acc.1 id2).2 eid = some E := by
    rw [alookup_apop_ne _ _ _ hne]; exact hlook
  rcases hp : (apop acc.1 id2).1 with _ | e <;> simp only [hp]
  · exact ⟨htab, hidx⟩
  · exact ⟨htab, discardTags_keeps _ _ hne _ _ _ hidx⟩

/-- The whole removal flush keeps the table entry and index memberships of
any entity not on the removal queue. -/
theorem removalsPass_keeps (eid : ℕ) (E : Entity) (t : String)
    (queue : List ℕ) (hq : eid ∉ queue)
    (acc : List (ℕ × Entity) × List (String × List ℕ))
    (hlook : alookup acc.1 eid = some E)
    (hidx : ∃ s, alookup acc.2 t = some s ∧ eid ∈ s) :
    alookup (queue.foldl EntityManager.flushRemoveOne acc).1 eid = some E ∧
      ∃ s, alookup (queue.foldl EntityManager.flushRemoveOne acc).2 t = some s ∧ eid ∈ s := by
  induction queue generalizing acc with
  | nil => exact ⟨hlook, hidx⟩
  | cons id2 rest ih =>
    rw [List.foldl_cons]
    have hne : id2 ≠ eid := by
      intro hcontra; exact hq (hcontra ▸ List.mem_cons_self _ _)
    obtain ⟨h1, h2⟩ := flushRemoveOne_keeps eid E t acc id2 hne hlook hidx
    exact ih (fun hm => hq (List.mem_cons_of_mem _ hm)) _ h1 h2

/-- `EntityManager.update` unfolded into its three phases. -/
theorem update_char (m : EntityManager) (dt : ℚ) :
    m.update dt = EntityManager.processRemovals
      { m.processAdditions with
        entities := (((m.processAdditions).entities.map Prod.fst).foldl
          (EntityManager.updateStep dt) ((m.processAdditions).entities,
            (m.processAdditions).entities_to_remove, [])).1,
        entities_to_remove := (((m.processAdditions).entities.map Prod.fst).foldl
          (EntityManager.updateStep dt) ((m.processAdditions).entities,
            (m.processAdditions).entities_to_remove, [])).2.1 } := rfl

/-- C1 counterexample: an entity whose own update destroys it (an enabled
self-destroying behavior component, as `InkSlimeComponent` exhibits) is
*not* returned by `get_entities_with_tag` after the `update(dt)` call that
flushed it in, refuting the unconditional "after one update(dt) call,
get_entities_with_tag(t) includes E". -/
theorem c1_counterexample :
    buildEntity 0 ["enemy"] true true ∉
      (((EntityManager.add_entity {} (buildEntity 0 ["enemy"] true true)).update 1)).get_entities_with_tag
        "enemy" := by decide

/-- Membership introduction for `get_entities_with_tag`: an indexed id
that resolves in the table puts the resolved entity in the query result. -/
theorem mem_get_entities_with_tag (m : EntityManager) (t : String) (E : Entity)
    (s : List ℕ) (hsl : alookup m.tag_index t = some s)
    (hsm : E.entity_id ∈ s)
    (hlook : alookup m.entities E.entity_id = some E) :
    E ∈ m.get_entities_with_tag t := by
  unfold EntityManager.get_entities_with_tag
  rw [hsl]
  exact List.mem_filterMap.2 ⟨E.entity_id, hsm, hlook⟩

/-- C1 (amended): deferred add visibility holds for every entity whose
update does not mark it for destruction: after `add_entity(E)` the tag
query does not include `E`, and after one completed `update(dt)` call it
does.  (The unamended claim fails only for entities destroyed during that
same update pass.) -/
theorem c1_deferred_add_visibility (m : EntityManager) (E : Entity)
    (t : String) (dt : ℚ)
    (hkeys : ∀ p ∈ m.entities, p.2.entity_id = p.1)
    (hfresh : alookup m.entities E.entity_id = none)
    (hrem : E.entity_id ∉ m.entities_to_remove)
    (ht : t ∈ E.tags)
    (hmark : E.marked_for_destruction = false)
    (hsd : E.selfDestructs = false) :
    E ∉ (m.add_entity E).get_entities_with_tag t ∧
      E ∈ ((m.add_entity E).update dt).get_entities_with_tag t := by
  constructor
  · intro hmem
    have : (m.add_entity E).get_entities_with_tag t =
        ((alookup m.tag_index t).getD []).filterMap
          (fun entity_id => alookup m.entities entity_id) := rfl
    rw [this] at hmem
    obtain ⟨eid, _, hlk⟩ := List.mem_filterMap.1 hmem
    have hpair := alookup_mem hlk
    have heid := hkeys _ hpair
    rw [heid] at hfresh
    rw [hfresh] at hlk
    exact Option.noConfusion hlk
  · have hflush1 := flush_lookup_self m E
    have hflush2 := flush_index_mem m E t ht
    have hremQ : E.entity_id ∉
        ((m.add_entity E).processAdditions).entities_to_remove := hrem
    have hpass := updatePass_keeps dt E hsd hmark
      (((m.add_entity E).processAdditions).entities.map Prod.fst)
      (((m.add_entity E).processAdditions).entities,
        ((m.add_entity E).processAdditions).entities_to_remove, [])
      hflush1 hremQ
    have hfinal := removalsPass_keeps E.entity_id E t
      ((((m.add_entity E).processAdditions).entities.map Prod.fst).foldl
        (EntityManager.updateStep dt)
        (((m.add_entity E).processAdditions).entities,
          ((m.add_entity E).processAdditions).entities_to_remove, [])).2.1
      hpass.2
      (((((m.add_entity E).processAdditions).entities.map Prod.fst).foldl
        (EntityManager.updateStep dt)
        (((m.add_entity E).processAdditions).entities,
          ((m.add_entity E).processAdditions).entities_to_remove, [])).1,
        ((m.add_entity E).processAdditions).tag_index)
      hpass.1 hflush2
    obtain ⟨s, hsl, hsm⟩ := hfinal.2
    exact mem_get_entities_with_tag ((m.add_entity E).update dt) t E s
      hsl hsm hfinal.1

/-- Witness for `c1_deferred_add_visibility`: a fresh tagged entity with an
inert component, added to a manager that already tracks another entity. -/
theorem c1_deferred_add_visibility_witness :
    (∀ p ∈ [((5 : ℕ), buildEntity 5 ["enemy"] true false)],
        (Prod.snd p).entity_id = p.1) ∧
    buildEntity 9 ["enemy"] true false ∉
      (EntityManager.get_entities_with_tag
        (EntityManager.add_entity
          { entities := [(5, buildEntity 5 ["enemy"] true false)] }
          (buildEntity 9 ["enemy"] true false)) "enemy") ∧
    buildEntity 9 ["enemy"] true false ∈
      (EntityManager.get_entities_with_tag
        (EntityManager.update (EntityManager.add_entity
          { entities := [(5, buildEntity 5 ["enemy"] true false)] }
          (buildEntity 9 ["enemy"] true false)) 1) "enemy") := by
  refine ⟨by decide, ?_, ?_⟩
  · exact (c1_deferred_add_visibility
      { entities := [(5, buildEntity 5 ["enemy"] true false)] }
      (buildEntity 9 ["enemy"] true false) "enemy" 1
      (by decide) (by decide) (by decide) (by decide) (by decide) (by decide)).1
  · exact (c1_deferred_add_visibility
      { entities := [(5, buildEntity 5 ["enemy"] true false)] }
      (buildEntity 9 ["enemy"] true false) "enemy" 1
      (by decide) (by decide) (by decide) (by decide) (by decide) (by decide)).2

/-! ### C3 — self-destruction-safe iteration -/

/-- Members of `ainsert` are the new pair or old members. -/
theorem mem_ainsert {κ β : Type} [DecidableEq κ] {l : List (κ × β)}
    {k : κ} {v : β} {p : κ × β} (hp : p ∈ ainsert l k v) :
    p = (k, v) ∨ p ∈ l := by
  induction l with
  | nil => simpa [ainsert] using hp
  | cons q rest ih =>
    obtain ⟨qk, qv⟩ := q
    by_cases hqk : qk = k
    · subst hqk
      simp only [ainsert, if_pos rfl] at hp
      rcases List.mem_cons.1 hp with rfl | h
      · exact Or.inl rfl
      · exact Or.inr (List.mem_cons_of_mem _ h)
    · simp only [ainsert, if_neg hqk] at hp
      rcases List.mem_cons.1 hp with rfl | h
      · exact Or.inr (List.mem_cons_self _ _)
      · rcases ih h with h1 | h2
        · exact Or.inl h1
        · exact Or.inr (List.mem_cons_of_mem _ h2)

/-- With duplicate-free keys, `ainsert` fully replaces the old entry. -/
theorem mem_ainsert_of_nodup {κ β : Type} [DecidableEq κ] {l : List (κ × β)}
    {k : κ} {v : β} {p : κ × β} (hnd : (l.map Prod.fst).Nodup)
    (hp : p ∈ ainsert l k v) :
    p = (k, v) ∨ (p ∈ l ∧ p.1 ≠ k) := by
  induction l with
  | nil =>
    simp only [ainsert, List.mem_singleton] at hp
    exact Or.inl hp
  | cons q rest ih =>
    obtain ⟨qk, qv⟩ := q
    simp only [List.map_cons, List.nodup_cons] at hnd
    by_cases hqk : qk = k
    · subst hqk
      simp only [ainsert, if_pos rfl] at hp
      rcases List.mem_cons.1 hp with rfl | h
      · exact Or.inl rfl
      · refine Or.inr ⟨List.mem_cons_of_mem _ h, ?_⟩
        intro hpk
        exact hnd.1 (hpk ▸ (List.mem_map.2 ⟨p, h, rfl⟩))
    · simp only [ainsert, if_neg hqk] at hp
      rcases List.mem_cons.1 hp with rfl | h
      · exact Or.inr ⟨List.mem_cons_self _ _, hqk⟩
      · rcases ih hnd.2 h with h1 | ⟨h2, h3⟩
        · exact Or.inl h1
        · exact Or.inr ⟨List.mem_cons_of_mem _ h2, h3⟩

/-- Members of `aerase` were members before. -/
theorem mem_aerase {κ β : Type} [DecidableEq κ] {l : List (κ × β)} {k : κ}
    {p : κ × β} (hp : p ∈ aerase l k) : p ∈ l := by
  induction l with
  | nil => simpa [aerase] using hp
  | cons q rest ih =>
    obtain ⟨qk, qv⟩ := q
    by_cases hqk : qk = k
    · subst hqk
      simp only [aerase, if_pos rfl] at hp
      exact List.mem_cons_of_mem _ hp
    · simp only [aerase, if_neg hqk] at hp
      rcases List.mem_cons.1 hp with rfl | h
      · exact List.mem_cons_self _ _
      · exact List.mem_cons_of_mem _ (ih h)

/-- With duplicate-free keys, `aerase` removes every entry under the key. -/
theorem mem_aerase_of_nodup {κ β : Type} [DecidableEq κ] {l : List (κ × β)}
    {k : κ} {p : κ × β} (hnd : (l.map Prod.fst).Nodup)
    (hp : p ∈ aerase l k) : p ∈ l ∧ p.1 ≠ k := by
  induction l with
  | nil => simpa [aerase] using hp
  | cons q rest ih =>
    obtain ⟨qk, qv⟩ := q
    simp only [List.map_cons, List.nodup_cons] at hnd
    by_cases hqk : qk = k
    · subst hqk
      simp only [aerase, if_pos rfl] at hp
      refine ⟨List.mem_cons_of_mem _ hp, ?_⟩
      intro hpk
      exact hnd.1 (hpk ▸ (List.mem_map.2 ⟨p, hp, rfl⟩))
    · simp only [aerase, if_neg hqk] at hp
      rcases List.mem_cons.1 hp with rfl | h
      · exact ⟨List.mem_cons_self _ _, hqk⟩
      · obtain ⟨h2, h3⟩ := ih hnd.2 h
        exact ⟨List.mem_cons_of_mem _ h2, h3⟩

/-- `aerase` is the second component of `apop`. -/
theorem aerase_eq_apop {κ β : Type} [DecidableEq κ] (l : List (κ × β))
    (k : κ) : aerase l k = (apop l k).2 := by
  induction l with
  | nil => simp [aerase, apop]
  | cons q rest ih =>
    obtain ⟨qk, qv⟩ := q
    by_cases hqk : qk = k <;> simp [aerase, apop, hqk, ih]

/-- `setAdd` keeps a set duplicate-free. -/
theorem setAdd_nodup {α : Type} [DecidableEq α] {l : List α} (a : α)
    (h : l.Nodup) : (setAdd l a).Nodup := by
  unfold setAdd
  by_cases ha : a ∈ l
  · simpa [ha] using h
  · rw [if_neg ha]
    refine List.Nodup.append h (List.nodup_singleton a) ?_
    intro x hx hxa
    rw [List.mem_singleton] at hxa
    subst hxa
    exact ha hx

/-- Flushing additions whose ids all differ from `eid` does not change the
table entry at `eid`. -/
theorem flush_lookup_frozen (adds : List Entity)
    (acc : List (ℕ × Entity) × List (String × List ℕ)) (eid : ℕ)
    (h : ∀ a ∈ adds, a.entity_id ≠ eid) :
    alookup (adds.foldl EntityManager.flushAddOne acc).1 eid = alookup acc.1 eid := by
  induction adds generalizing acc with
  | nil => rfl
  | cons a rest ih =>
    rw [List.foldl_cons]
    rw [ih _ (fun b hb => h b (List.mem_cons_of_mem _ hb))]
    show alookup (ainsert acc.1 a.entity_id a) eid = alookup acc.1 eid
    exact alookup_ainsert_ne _ _ _ _ (h a (List.mem_cons_self _ _))

/-- Flushing fresh, pairwise-distinct additions keeps table keys
duplicate-free. -/
theorem flush_keys_nodup (adds : List Entity)
    (acc : List (ℕ × Entity) × List (String × List ℕ))
    (hnd : (acc.1.map Prod.fst).Nodup)
    (hfresh : ∀ a ∈ adds, alookup acc.1 a.entity_id = none)
    (hadds : (adds.map Entity.entity_id).Nodup) :
    ((adds.foldl EntityManager.flushAddOne acc).1.map Prod.fst).Nodup := by
  induction adds generalizing acc with
  | nil => exact hnd
  | cons a rest ih =>
    rw [List.foldl_cons]
    simp only [List.map_cons, List.nodup_cons] at hadds
    refine ih _ ?_ ?_ hadds.2
    · show ((ainsert acc.1 a.entity_id a).map Prod.fst).Nodup
      rw [keys_ainsert]
      have hnotin : a.entity_id ∉ acc.1.map Prod.fst :=
        (alookup_eq_none_iff _ _).1 (hfresh a (List.mem_cons_self _ _))
      rw [if_neg hnotin]
      refine List.Nodup.append hnd (List.nodup_singleton _) ?_
      intro x hx hxa
      rw [List.mem_singleton] at hxa
      subst hxa
      exact hnotin hx
    · intro b hb
      show alookup (ainsert acc.1 a.entity_id a) b.entity_id = none
      rw [alookup_ainsert _ _ _ _]
      have hbne : a.entity_id ≠ b.entity_id := by
        intro hcontra
        exact hadds.1 (hcontra ▸ (List.mem_map.2 ⟨b, hb, rfl⟩))
      rw [if_neg hbne]
      exact hfresh b (List.mem_cons_of_mem _ hb)

/-- Merging a foreign id into the index preserves: duplicate-free keys,
duplicate-free sets, and "every set containing `eid` belongs to a tag in
`L`". -/
theorem tagIndexAdd_conds (eid id2 : ℕ) (hne : id2 ≠ eid) (L : List String)
    (idx : List (String × List ℕ)) (τ : String)
    (hkeys : (idx.map Prod.fst).Nodup)
    (hsets : ∀ p ∈ idx, p.2.Nodup)
    (hfwd : ∀ p ∈ idx, eid ∈ p.2 → p.1 ∈ L) :
    ((EntityManager.tagIndexAdd id2 idx τ).map Prod.fst).Nodup ∧
    (∀ p ∈ EntityManager.tagIndexAdd id2 idx τ, p.2.Nodup) ∧
    (∀ p ∈ EntityManager.tagIndexAdd id2 idx τ, eid ∈ p.2 → p.1 ∈ L) := by
  unfold EntityManager.tagIndexAdd
  rcases hl : alookup idx τ with _ | s
  · have hτ : τ ∉ idx.map Prod.fst := (alookup_eq_none_iff _ _).1 hl
    refine ⟨?_, ?_, ?_⟩
    · rw [keys_ainsert, if_neg hτ]
      refine List.Nodup.append hkeys (List.nodup_singleton _) ?_
      intro x hx hxa
      rw [List.mem_singleton] at hxa
      subst hxa
      exact hτ hx
    · intro p hp
      rcases mem_ainsert hp with rfl | hold
      · exact List.nodup_singleton _
      · exact hsets _ hold
    · intro p hp hmem
      rcases mem_ainsert hp with rfl | hold
      · rw [List.mem_singleton] at hmem
        exact (hne hmem.symm).elim
      · exact hfwd _ hold hmem
  · have hsmem := alookup_mem hl
    have hτ : τ ∈ idx.map Prod.fst :=
      (alookup_isSome_iff _ _).1 (by rw [hl]; rfl)
    refine ⟨?_, ?_, ?_⟩
    · rw [keys_ainsert, if_pos hτ]
      exact hkeys
    · intro p hp
      rcases mem_ainsert hp with rfl | hold
      · exact setAdd_nodup _ (hsets _ hsmem)
      · exact hsets _ hold
    · intro p hp hmem
      rcases mem_ainsert hp with rfl | hold
      · rcases (mem_setAdd _ _ _).1 hmem with h1 | h2
        · exact (hne h1.symm).elim
        · exact hfwd (τ, s) hsmem h2
      · exact hfwd _ hold hmem

/-- Folding foreign-id tag merges preserves the three index conditions. -/
theorem tagfold_add_conds (eid id2 : ℕ) (hne : id2 ≠ eid) (L : List String)
    (tags : List String) (idx : List (String × List ℕ))
    (hkeys : (idx.map Prod.fst).Nodup)
    (hsets : ∀ p ∈ idx, p.2.Nodup)
    (hfwd : ∀ p ∈ idx, eid ∈ p.2 → p.1 ∈ L) :
    (((tags.foldl (EntityManager.tagIndexAdd id2) idx).map Prod.fst).Nodup) ∧
    (∀ p ∈ tags.foldl (EntityManager.tagIndexAdd id2) idx, p.2.Nodup) ∧
    (∀ p ∈ tags.foldl (EntityManager.tagIndexAdd id2) idx,
      eid ∈ p.2 → p.1 ∈ L) := by
  induction tags generalizing idx with
  | nil => exact ⟨hkeys, hsets, hfwd⟩
  | cons τ rest ih =>
    rw [List.foldl_cons]
    obtain ⟨h1, h2, h3⟩ := tagIndexAdd_conds eid id2 hne L idx τ hkeys hsets hfwd
    exact ih _ h1 h2 h3

/-- Flushing additions with foreign ids preserves the three index
conditions. -/
theorem flush_idx_conds (eid : ℕ) (L : List String) (adds : List Entity)
    (acc : List (ℕ × Entity) × List (String × List ℕ))
    (hne : ∀ a ∈ adds, a.entity_id ≠ eid)
    (hkeys : (acc.2.map Prod.fst).Nodup)
    (hsets : ∀ p ∈ acc.2, p.2.Nodup)
    (hfwd : ∀ p ∈ acc.2, eid ∈ p.2 → p.1 ∈ L) :
    (((adds.foldl EntityManager.flushAddOne acc).2.map Prod.fst).Nodup) ∧
    (∀ p ∈ (adds.foldl EntityManager.flushAddOne acc).2, p.2.Nodup) ∧
    (∀ p ∈ (adds.foldl EntityManager.flushAddOne acc).2,
      eid ∈ p.2 → p.1 ∈ L) := by
  induction adds generalizing acc with
  | nil => exact ⟨hkeys, hsets, hfwd⟩
  | cons a rest ih =>
    rw [List.foldl_cons]
    obtain ⟨h1, h2, h3⟩ := tagfold_add_conds eid a.entity_id
      (hne a (List.mem_cons_self _ _)) L a.tags acc.2 hkeys hsets hfwd
    exact ih _ (fun b hb => hne b (List.mem_cons_of_mem _ hb)) h1 h2 h3

/-- An update-pass step only writes the table at its own id. -/
theorem updateStep_lookup_ne (dt : ℚ)
    (acc : List (ℕ × Entity) × List ℕ × List ℕ) (id2 eid : ℕ)
    (h : id2 ≠ eid) :
    alookup (EntityManager.updateStep dt acc id2).1 eid = alookup acc.1 eid := by
  unfold EntityManager.updateStep
  rcases hl : alookup acc.1 id2 with _ | e2
  · rfl
  · simp only [hl]
    exact alookup_ainsert_ne _ _ _ _ h

/-- An update-pass step does not change the set of table keys. -/
theorem updateStep_keys (dt : ℚ)
    (acc : List (ℕ × Entity) × List ℕ × List ℕ) (id2 : ℕ) :
    (EntityManager.updateStep dt acc id2).1.map Prod.fst
      = acc.1.map Prod.fst := by
  unfold EntityManager.updateStep
  rcases hl : alookup acc.1 id2 with _ | e2
  · rfl
  · simp only [hl]
    rw [keys_ainsert, if_pos ((alookup_isSome_iff _ _).1 (by rw [hl]; rfl))]

/-- An update-pass step only appends to the removal queue. -/
theorem updateStep_removeQ_mono (dt : ℚ)
    (acc : List (ℕ × Entity) × List ℕ × List ℕ) (id2 : ℕ) :
    acc.2.1 ⊆ (EntityManager.updateStep dt acc id2).2.1 := by
  unfold EntityManager.updateStep
  rcases hl : alookup acc.1 id2 with _ | e2
  · exact List.Subset.refl _
  · simp only [hl]
    split <;> (try split) <;>
      first
        | exact List.subset_append_left _ _
        | exact List.Subset.refl _

/-- An update-pass step only appends to the invocation trace. -/
theorem updateStep_trace_mono (dt : ℚ)
    (acc : List (ℕ × Entity) × List ℕ × List ℕ) (id2 : ℕ) :
    acc.2.2 ⊆ (EntityManager.updateStep dt acc id2).2.2 := by
  unfold EntityManager.updateStep
  rcases hl : alookup acc.1 id2 with _ | e2
  · exact List.Subset.refl _
  · simp only [hl]
    split <;> (try split) <;>
      first
        | exact List.subset_append_left _ _
        | exact List.Subset.refl _

/-- The update pass only appends to the removal queue. -/
theorem updatePass_removeQ_mono (dt : ℚ) (ids : List ℕ)
    (acc : List (ℕ × Entity) × List ℕ × List ℕ) :
    acc.2.1 ⊆ (ids.foldl (EntityManager.updateStep dt) acc).2.1 := by
  induction ids generalizing acc with
  | nil => exact List.Subset.refl _
  | cons id2 rest ih =>
    rw [List.foldl_cons]
    exact (updateStep_removeQ_mono dt acc id2).trans (ih _)

/-- The update pass only appends to the invocation trace. -/
theorem updatePass_trace_mono (dt : ℚ) (ids : List ℕ)
    (acc : List (ℕ × Entity) × List ℕ × List ℕ) :
    acc.2.2 ⊆ (ids.foldl (EntityManager.updateStep dt) acc).2.2 := by
  induction ids generalizing acc with
  | nil => exact List.Subset.refl _
  | cons id2 rest ih =>
    rw [List.foldl_cons]
    exact (updateStep_trace_mono dt acc id2).trans (ih _)

/-- The update pass leaves the table untouched at ids it does not visit. -/
theorem updatePass_lookup_frozen (dt : ℚ) (ids : List ℕ)
    (acc : List (ℕ × Entity) × List ℕ × List ℕ) (eid : ℕ)
    (h : eid ∉ ids) :
    alookup (ids.foldl (EntityManager.updateStep dt) acc).1 eid
      = alookup acc.1 eid := by
  induction ids generalizing acc with
  | nil => rfl
  | cons id2 rest ih =>
    rw [List.foldl_cons]
    rw [ih _ (fun hm => h (List.mem_cons_of_mem _ hm))]
    exact updateStep_lookup_ne dt acc id2 eid
      (fun hc => h (hc ▸ List.mem_cons_self _ _))

/-- The update pass does not change the set of table keys. -/
theorem updatePass_keys (dt : ℚ) (ids : List ℕ)
    (acc : List (ℕ × Entity) × List ℕ × List ℕ) :
    (ids.foldl (EntityManager.updateStep dt) acc).1.map Prod.fst
      = acc.1.map Prod.fst := by
  induction ids generalizing acc with
  | nil => rfl
  | cons id2 rest ih =>
    rw [List.foldl_cons, ih _, updateStep_keys]

/-- During the update pass, a visited live self-destroying entity ends up
destroyed in the table and enqueued for removal. -/
theorem updatePass_self_destroyer (dt : ℚ) (e : Entity)
    (hactive : e.active = true) (hmark : e.marked_for_destruction = false)
    (hsd : e.selfDestructs = true) (ids : List ℕ) :
    ∀ (acc : List (ℕ × Entity) × List ℕ × List ℕ), ids.Nodup →
      e.entity_id ∈ ids → alookup acc.1 e.entity_id = some e →
      alookup (ids.foldl (EntityManager.updateStep dt) acc).1 e.entity_id
          = some ((e.destroy).1) ∧
        e.entity_id ∈ (ids.foldl (EntityManager.updateStep dt) acc).2.1 := by
  induction ids with
  | nil => intro acc _ hin _; cases hin
  | cons id2 rest ih =>
    intro acc hnd hin hval
    rw [List.foldl_cons]
    obtain ⟨hnotin, hndrest⟩ := List.nodup_cons.1 hnd
    by_cases hid : id2 = e.entity_id
    · subst hid
      have hupd : e.update dt = (e.destroy).1 := by
        unfold Entity.update
        rw [hactive, hsd]
        rfl
      have hcond : (e.active && !e.marked_for_destruction) = true := by
        rw [hactive, hmark]; rfl
      have hstep1 : alookup
          (EntityManager.updateStep dt acc e.entity_id).1 e.entity_id
          = some ((e.destroy).1) := by
        unfold EntityManager.updateStep
        simp only [hval, hcond, if_true, hupd]
        exact alookup_ainsert_self _ _ _
      have hstep2 : e.entity_id ∈
          (EntityManager.updateStep dt acc e.entity_id).2.1 := by
        unfold EntityManager.updateStep
        simp only [hval, hcond, if_true, hupd]
        have hmarked : ((e.destroy).1).marked_for_destruction = true := rfl
        simp only [hmarked, alookup_ainsert_self, Option.isSome_some,
          Bool.and_self, if_true]
        exact List.mem_append_right _ (List.mem_singleton.2 rfl)
      refine ⟨?_, updatePass_removeQ_mono dt rest _ hstep2⟩
      rw [updatePass_lookup_frozen dt rest _ e.entity_id hnotin]
      exact hstep1
    · have hval2 : alookup (EntityManager.updateStep dt acc id2).1 e.entity_id
          = some e := by
        rw [updateStep_lookup_ne dt acc id2 _ hid]
        exact hval
      have hin2 : e.entity_id ∈ rest := by
        rcases List.mem_cons.1 hin with h1 | h2
        · exact (hid h1.symm).elim
        · exact h2
      exact ih _ hndrest hin2 hval2

/-- Every visited live entity has its `update(dt)` invoked: the snapshot
iteration does not skip siblings, whatever other entities do. -/
theorem updatePass_trace (dt : ℚ) (ids : List ℕ) (id0 : ℕ) (e0 : Entity)
    (ha : e0.active = true) (hm : e0.marked_for_destruction = false) :
    ∀ (acc : List (ℕ × Entity) × List ℕ × List ℕ), ids.Nodup →
      id0 ∈ ids → alookup acc.1 id0 = some e0 →
      id0 ∈ (ids.foldl (EntityManager.updateStep dt) acc).2.2 := by
  induction ids with
  | nil => intro acc _ hin _; cases hin
  | cons id2 rest ih =>
    intro acc hnd hin hval
    rw [List.foldl_cons]
    obtain ⟨hnotin, hndrest⟩ := List.nodup_cons.1 hnd
    by_cases hid : id2 = id0
    · have hcond : (e0.active && !e0.marked_for_destruction) = true := by
        rw [ha, hm]; rfl
      have hstep : id0 ∈ (EntityManager.updateStep dt acc id2).2.2 := by
        rw [hid]
        unfold EntityManager.updateStep
        simp only [hval, hcond, if_true]
        exact List.mem_append_right _ (List.mem_singleton.2 rfl)
      exact updatePass_trace_mono dt rest _ hstep
    · have hval2 : alookup (EntityManager.updateStep dt acc id2).1 id0
          = some e0 := by
        rw [updateStep_lookup_ne dt acc id2 _ hid]
        exact hval
      have hin2 : id0 ∈ rest := by
        rcases List.mem_cons.1 hin with h1 | h2
        · exact (hid h1.symm).elim
        · exact h2
      exact ih _ hndrest hin2 hval2

/-- Discarding an entity's own tags clears its id from every index set,
given duplicate-free keys and sets and that only its own tags' sets
mention it. -/
theorem discardTags_clears (eid : ℕ) (tags : List String)
    (idx : List (String × List ℕ))
    (hkeys : (idx.map Prod.fst).Nodup)
    (hsets : ∀ p ∈ idx, p.2.Nodup)
    (hfwd : ∀ p ∈ idx, eid ∈ p.2 → p.1 ∈ tags) :
    ∀ p ∈ EntityManager.discardTags eid idx tags, eid ∉ p.2 := by
  unfold EntityManager.discardTags
  induction tags generalizing idx with
  | nil =>
    intro p hp hmem
    exact List.not_mem_nil _ (hfwd p hp hmem)
  | cons τ rest ih =>
    rw [List.foldl_cons]
    refine ih (EntityManager.tagIndexDiscard eid idx τ) ?_ ?_ ?_
    · unfold EntityManager.tagIndexDiscard
      rcases hl : alookup idx τ with _ | s
      · exact hkeys
      · simp only []
        split
        · rw [show aerase idx τ = (apop idx τ).2 from aerase_eq_apop idx τ,
            keys_apop]
          exact List.Nodup.erase _ hkeys
        · rw [keys_ainsert,
            if_pos ((alookup_isSome_iff _ _).1 (by rw [hl]; rfl))]
          exact hkeys
    · unfold EntityManager.tagIndexDiscard
      rcases hl : alookup idx τ with _ | s
      · exact hsets
      · simp only []
        split
        · intro p hp
          exact hsets _ (mem_aerase hp)
        · intro p hp
          rcases mem_ainsert_of_nodup hkeys hp with rfl | ⟨hold, _⟩
          · exact List.Nodup.erase _ (hsets _ (alookup_mem hl))
          · exact hsets _ hold
    · unfold EntityManager.tagIndexDiscard
      rcases hl : alookup idx τ with _ | s
      · intro p hp hmem
        have := hfwd p hp hmem
        rcases List.mem_cons.1 this with rfl | h2
        · exact absurd ((alookup_isSome_iff _ _).2
            (List.mem_map.2 ⟨p, hp, rfl⟩)) (by rw [hl]; simp)
        · exact h2
      · simp only []
        split
        · intro p hp hmem
          obtain ⟨hold, hpne⟩ := mem_aerase_of_nodup hkeys hp
          rcases List.mem_cons.1 (hfwd p hold hmem) with h1 | h2
          · exact (hpne h1).elim
          · exact h2
        · intro p hp hmem
          rcases mem_ainsert_of_nodup hkeys hp with rfl | ⟨hold, hpne⟩
          · have hnd := hsets _ (alookup_mem hl)
            exact absurd hmem (by
              intro hc
              exact ((List.Nodup.mem_erase_iff hnd).1 hc).1 rfl)
          · rcases List.mem_cons.1 (hfwd p hold hmem) with h1 | h2
            · exact (hpne h1).elim
            · exact h2

/-- The table after one removal-flush step is the popped table. -/
theorem flushRemoveOne_table
    (acc : List (ℕ × Entity) × List (String × List ℕ)) (id3 : ℕ) :
    (EntityManager.flushRemoveOne acc id3).1 = (apop acc.1 id3).2 := by
  unfold EntityManager.flushRemoveOne
  rcases hp : (apop acc.1 id3).1 with _ | e3 <;> simp only [hp]

/-- Discarding any id keeps an index clear of `eid` once it is clear. -/
theorem discardTags_keeps_cleared (eid id3 : ℕ) (tags : List String)
    (idx : List (String × List ℕ)) (h : ∀ p ∈ idx, eid ∉ p.2) :
    ∀ p ∈ EntityManager.discardTags id3 idx tags, eid ∉ p.2 := by
  unfold EntityManager.discardTags
  induction tags generalizing idx with
  | nil => exact h
  | cons τ rest ih =>
    rw [List.foldl_cons]
    refine ih _ ?_
    intro p hp
    revert hp
    unfold EntityManager.tagIndexDiscard
    rcases hl : alookup idx τ with _ | s
    · intro hp; exact h p hp
    · simp only []
      split
      · intro hp; exact h p (mem_aerase hp)
      · intro hp
        rcases mem_ainsert hp with rfl | hold
        · intro hmem
          exact h _ (alookup_mem hl) (List.mem_of_mem_erase hmem)
        · exact h p hold

/-- Discarding a foreign id's tags preserves the three index conditions. -/
theorem tagIndexDiscard_conds (eid id3 : ℕ) (hne : id3 ≠ eid)
    (L : List String) (idx : List (String × List ℕ)) (τ : String)
    (hkeys : (idx.map Prod.fst).Nodup)
    (hsets : ∀ p ∈ idx, p.2.Nodup)
    (hfwd : ∀ p ∈ idx, eid ∈ p.2 → p.1 ∈ L) :
    ((EntityManager.tagIndexDiscard id3 idx τ).map Prod.fst).Nodup ∧
    (∀ p ∈ EntityManager.tagIndexDiscard id3 idx τ, p.2.Nodup) ∧
    (∀ p ∈ EntityManager.tagIndexDiscard id3 idx τ, eid ∈ p.2 → p.1 ∈ L) := by
  unfold EntityManager.tagIndexDiscard
  rcases hl : alookup idx τ with _ | s
  · exact ⟨hkeys, hsets, hfwd⟩
  · simp only []
    have hτ : τ ∈ idx.map Prod.fst :=
      (alookup_isSome_iff _ _).1 (by rw [hl]; rfl)
    split
    · refine ⟨?_, ?_, ?_⟩
      · rw [aerase_eq_apop, keys_apop]
        exact List.Nodup.erase _ hkeys
      · intro p hp; exact hsets _ (mem_aerase hp)
      · intro p hp; exact hfwd _ (mem_aerase hp)
    · refine ⟨?_, ?_, ?_⟩
      · rw [keys_ainsert, if_pos hτ]
        exact hkeys
      · intro p hp
        rcases mem_ainsert hp with rfl | hold
        · exact List.Nodup.erase _ (hsets _ (alookup_mem hl))
        · exact hsets _ hold
      · intro p hp hmem
        rcases mem_ainsert hp with rfl | hold
        · have hmem1 : eid ∈ s.erase id3 := hmem
          exact hfwd (τ, s) (alookup_mem hl) (List.mem_of_mem_erase hmem1)
        · exact hfwd _ hold hmem

/-- Discarding all tags of a foreign entity preserves the three index
conditions. -/
theorem discardTags_conds (eid id3 : ℕ) (hne : id3 ≠ eid) (L : List String)
    (tags : List String) (idx : List (String × List ℕ))
    (hkeys : (idx.map Prod.fst).Nodup)
    (hsets : ∀ p ∈ idx, p.2.Nodup)
    (hfwd : ∀ p ∈ idx, eid ∈ p.2 → p.1 ∈ L) :
    (((EntityManager.discardTags id3 idx tags).map Prod.fst).Nodup) ∧
    (∀ p ∈ EntityManager.discardTags id3 idx tags, p.2.Nodup) ∧
    (∀ p ∈ EntityManager.discardTags id3 idx tags, eid ∈ p.2 → p.1 ∈ L) := by
  unfold EntityManager.discardTags
  induction tags generalizing idx with
  | nil => exact ⟨hkeys, hsets, hfwd⟩
  | cons τ rest ih =>
    rw [List.foldl_cons]
    obtain ⟨h1, h2, h3⟩ := tagIndexDiscard_conds eid id3 hne L idx τ hkeys hsets hfwd
    exact ih _ h1 h2 h3

/-- Once an entity is out of the table and the index, further removal
flushing keeps it out. -/
theorem removals_keep_cleared (eid : ℕ) (queue : List ℕ) :
    ∀ (acc : List (ℕ × Entity) × List (String × List ℕ)),
      alookup acc.1 eid = none → (∀ p ∈ acc.2, eid ∉ p.2) →
      alookup (queue.foldl EntityManager.flushRemoveOne acc).1 eid = none ∧
      ∀ p ∈ (queue.foldl EntityManager.flushRemoveOne acc).2, eid ∉ p.2 := by
  induction queue with
  | nil => intro acc h1 h2; exact ⟨h1, h2⟩
  | cons id3 rest ih =>
    intro acc h1 h2
    rw [List.foldl_cons]
    have htab : alookup (EntityManager.flushRemoveOne acc id3).1 eid = none := by
      rw [flushRemoveOne_table, alookup_eq_none_iff, keys_apop]
      intro hm
      exact (alookup_eq_none_iff _ _).1 h1 (List.mem_of_mem_erase hm)
    have hidx : ∀ p ∈ (EntityManager.flushRemoveOne acc id3).2, eid ∉ p.2 := by
      unfold EntityManager.flushRemoveOne
      rcases hp : (apop acc.1 id3).1 with _ | e3 <;> simp only [hp]
      · exact h2
      · exact discardTags_keeps_cleared eid id3 e3.tags acc.2 h2
    exact ih _ htab hidx

/-- Flushing a removal queue containing a destroyed entity's id removes it
from the table and from every tag's index set. -/
theorem removals_clear (eid : ℕ) (dead : Entity) (queue : List ℕ) :
    ∀ (acc : List (ℕ × Entity) × List (String × List ℕ)),
      eid ∈ queue →
      alookup acc.1 eid = some dead →
      (acc.1.map Prod.fst).Nodup →
      (acc.2.map Prod.fst).Nodup →
      (∀ p ∈ acc.2, p.2.Nodup) →
      (∀ p ∈ acc.2, eid ∈ p.2 → p.1 ∈ dead.tags) →
      alookup (queue.foldl EntityManager.flushRemoveOne acc).1 eid = none ∧
      ∀ p ∈ (queue.foldl EntityManager.flushRemoveOne acc).2, eid ∉ p.2 := by
  induction queue with
  | nil => intro acc hin; cases hin
  | cons id3 rest ih =>
    intro acc hin htab hnd hik his hif
    rw [List.foldl_cons]
    by_cases hid : id3 = eid
    · subst hid
      have hp : (apop acc.1 id3).1 = some dead := by
        rw [apop_fst]; exact htab
      have hstep_tab : alookup (EntityManager.flushRemoveOne acc id3).1 id3 = none := by
        rw [flushRemoveOne_table]
        exact alookup_apop_self _ _ hnd
      have hstep_idx : ∀ p ∈ (EntityManager.flushRemoveOne acc id3).2, id3 ∉ p.2 := by
        unfold EntityManager.flushRemoveOne
        simp only [hp]
        exact discardTags_clears id3 dead.tags acc.2 hik his hif
      exact removals_keep_cleared id3 rest _ hstep_tab hstep_idx
    · have hp2 : alookup (EntityManager.flushRemoveOne acc id3).1 eid = some dead := by
        rw [flushRemoveOne_table, alookup_apop_ne _ _ _ hid]
        exact htab
      have hnd2 : (((EntityManager.flushRemoveOne acc id3).1).map Prod.fst).Nodup := by
        rw [flushRemoveOne_table, keys_apop]
        exact List.Nodup.erase _ hnd
      have hidx2 : ((EntityManager.flushRemoveOne acc id3).2.map Prod.fst).Nodup ∧
          (∀ p ∈ (EntityManager.flushRemoveOne acc id3).2, p.2.Nodup) ∧
          (∀ p ∈ (EntityManager.flushRemoveOne acc id3).2,
            eid ∈ p.2 → p.1 ∈ dead.tags) := by
        unfold EntityManager.flushRemoveOne
        rcases hp : (apop acc.1 id3).1 with _ | e3 <;> simp only [hp]
        · exact ⟨hik, his, hif⟩
        · exact discardTags_conds eid id3 hid dead.tags e3.tags acc.2 hik his hif
      have hin2 : eid ∈ rest := by
        rcases List.mem_cons.1 hin with h1 | h2
        · exact (hid h1.symm).elim
        · exact h2
      exact ih _ hin2 hp2 hnd2 hidx2.1 hidx2.2.1 hidx2.2.2

/-- C3: if an entity's own `update` calls `destroy()` during an
`update(dt)` pass, then by the time the call returns it is gone from the
authoritative table and from every tag's index set, and every sibling that
was live in the post-flush snapshot still had its `update(dt)` invoked
(the model is a total function, so the iteration cannot crash).  The
hypotheses are the structural invariants every manager reachable through
the public API satisfies: table and index keys are duplicate-free, index
sets are duplicate-free, pending additions are fresh and distinct, and any
index set naming the entity belongs to a tag it carries. -/
theorem c3_self_destruction_safe (m : EntityManager) (dt : ℚ) (e : Entity)
    (htab_keys : (m.entities.map Prod.fst).Nodup)
    (hpend_fresh : ∀ a ∈ m.entities_to_add, alookup m.entities a.entity_id = none)
    (hpend_nodup : (m.entities_to_add.map Entity.entity_id).Nodup)
    (hidx_keys : (m.tag_index.map Prod.fst).Nodup)
    (hidx_sets : ∀ p ∈ m.tag_index, p.2.Nodup)
    (hidx_fwd : ∀ p ∈ m.tag_index, e.entity_id ∈ p.2 → p.1 ∈ e.tags)
    (hlook : alookup m.entities e.entity_id = some e)
    (hactive : e.active = true)
    (hmark : e.marked_for_destruction = false)
    (hsd : e.selfDestructs = true) :
    alookup ((m.update dt).entities) e.entity_id = none ∧
    (∀ p ∈ (m.update dt).tag_index, e.entity_id ∉ p.2) ∧
    (∀ id0 e0, alookup (m.processAdditions).entities id0 = some e0 →
      id0 ≠ e.entity_id → e0.active = true →
      e0.marked_for_destruction = false → id0 ∈ (m.updateFull dt).2) := by
  have hne_pend : ∀ a ∈ m.entities_to_add, a.entity_id ≠ e.entity_id := by
    intro a ha hcontra
    have hfr := hpend_fresh a ha
    rw [hcontra, hlook] at hfr
    exact Option.noConfusion hfr
  have h_m1_look : alookup (m.processAdditions).entities e.entity_id = some e := by
    show alookup (m.entities_to_add.foldl EntityManager.flushAddOne
      (m.entities, m.tag_index)).1 e.entity_id = some e
    rw [flush_lookup_frozen _ _ _ hne_pend]
    exact hlook
  have h_m1_keys : ((m.processAdditions).entities.map Prod.fst).Nodup := by
    show ((m.entities_to_add.foldl EntityManager.flushAddOne
      (m.entities, m.tag_index)).1.map Prod.fst).Nodup
    exact flush_keys_nodup _ _ htab_keys hpend_fresh hpend_nodup
  have h_m1_idx := flush_idx_conds e.entity_id e.tags m.entities_to_add
    (m.entities, m.tag_index) hne_pend hidx_keys hidx_sets hidx_fwd
  have h_snap_in : e.entity_id ∈ (m.processAdditions).entities.map Prod.fst :=
    (alookup_isSome_iff _ _).1 (by rw [h_m1_look]; rfl)
  have hpass := updatePass_self_destroyer dt e hactive hmark hsd
    ((m.processAdditions).entities.map Prod.fst)
    ((m.processAdditions).entities, (m.processAdditions).entities_to_remove,
      ([] : List ℕ))
    h_m1_keys h_snap_in h_m1_look
  have h_r_keys : (((((m.processAdditions).entities.map Prod.fst).foldl
      (EntityManager.updateStep dt)
      ((m.processAdditions).entities, (m.processAdditions).entities_to_remove,
        ([] : List ℕ))).1).map Prod.fst).Nodup := by
    rw [updatePass_keys]
    exact h_m1_keys
  have hclear := removals_clear e.entity_id ((e.destroy).1)
    ((((m.processAdditions).entities.map Prod.fst).foldl
      (EntityManager.updateStep dt)
      ((m.processAdditions).entities, (m.processAdditions).entities_to_remove,
        ([] : List ℕ))).2.1)
    (((((m.processAdditions).entities.map Prod.fst).foldl
      (EntityManager.updateStep dt)
      ((m.processAdditions).entities, (m.processAdditions).entities_to_remove,
        ([] : List ℕ))).1), (m.processAdditions).tag_index)
    hpass.2 hpass.1 h_r_keys h_m1_idx.1 h_m1_idx.2.1 h_m1_idx.2.2
  refine ⟨hclear.1, hclear.2, ?_⟩
  intro id0 e0 h0 _ ha0 hm0
  have hin0 : id0 ∈ (m.processAdditions).entities.map Prod.fst :=
    (alookup_isSome_iff _ _).1 (by rw [h0]; rfl)
  exact updatePass_trace dt _ id0 e0 ha0 hm0 _ h_m1_keys hin0 h0

/-- Witness for `c3_self_destruction_safe`: a manager tracking a tagged
self-destroying entity (id 0) and a live sibling (id 1); after one update
the self-destroyer is gone from table and index while the sibling's update
was invoked. -/
theorem c3_self_destruction_safe_witness :
    alookup ((EntityManager.update
        { entities := [(0, buildEntity 0 ["enemy"] true true),
                       (1, buildEntity 1 ["player"] true false)],
          tag_index := [("enemy", [0]), ("player", [1])] } 1).entities) 0 = none ∧
    (∀ p ∈ (EntityManager.update
        { entities := [(0, buildEntity 0 ["enemy"] true true),
                       (1, buildEntity 1 ["player"] true false)],
          tag_index := [("enemy", [0]), ("player", [1])] } 1).tag_index,
      (0 : ℕ) ∉ p.2) ∧
    (1 : ℕ) ∈ (EntityManager.updateFull
        { entities := [(0, buildEntity 0 ["enemy"] true true),
                       (1, buildEntity 1 ["player"] true false)],
          tag_index := [("enemy", [0]), ("player", [1])] } 1).2 := by
  have h := c3_self_destruction_safe
    { entities := [(0, buildEntity 0 ["enemy"] true true),
                   (1, buildEntity 1 ["player"] true false)],
      tag_index := [("enemy", [0]), ("player", [1])] }
    1 (buildEntity 0 ["enemy"] true true)
    (by decide) (by decide) (by decide) (by decide) (by decide) (by decide)
    (by decide) (by decide) (by decide) (by decide)
  exact ⟨h.1, h.2.1,
    h.2.2 1 (buildEntity 1 ["player"] true false) (by decide) (by decide)
      (by decide) (by decide)⟩

/-! ### C2 — tag-index consistency -/

/-- With duplicate-free keys, membership determines lookup. -/
theorem alookup_of_mem_nodup {κ β : Type} [DecidableEq κ] {l : List (κ × β)}
    (hnd : (l.map Prod.fst).Nodup) {p : κ × β} (hp : p ∈ l) :
    alookup l p.1 = some p.2 := by
  induction l with
  | nil => cases hp
  | cons q rest ih =>
    obtain ⟨qk, qv⟩ := q
    simp only [List.map_cons, List.nodup_cons] at hnd
    rcases List.mem_cons.1 hp with rfl | h
    · simp [alookup]
    · have hne : qk ≠ p.1 := by
        intro hc
        exact hnd.1 (hc ▸ List.mem_map.2 ⟨p, h, rfl⟩)
      simp only [alookup, if_neg hne]
      exact ih hnd.2 h

/-- Members after `apop` were members before. -/
theorem mem_apop {κ β : Type} [DecidableEq κ] {l : List (κ × β)} {k : κ}
    {p : κ × β} (hp : p ∈ (apop l k).2) : p ∈ l := by
  rw [← aerase_eq_apop] at hp
  exact mem_aerase hp

/-- With duplicate-free keys, `aerase` removes the key's entry. -/
theorem alookup_aerase_self {κ β : Type} [DecidableEq κ] (l : List (κ × β))
    (k : κ) (hnd : (l.map Prod.fst).Nodup) :
    alookup (aerase l k) k = none := by
  rw [aerase_eq_apop]
  exact alookup_apop_self _ _ hnd

/-- `Entity.update` leaves the tag list unchanged (destruction included). -/
theorem entity_update_tags (e : Entity) (dt : ℚ) :
    (e.update dt).tags = e.tags := by
  unfold Entity.update
  by_cases h1 : (!e.active) = true
  · rw [if_pos h1]
  · rw [if_neg h1]
    by_cases h2 : e.selfDestructs = true
    · rw [if_pos h2]; rfl
    · rw [if_neg h2]

/-- `Entity.update` leaves the id unchanged. -/
theorem entity_update_id (e : Entity) (dt : ℚ) :
    (e.update dt).entity_id = e.entity_id := by
  unfold Entity.update
  by_cases h1 : (!e.active) = true
  · rw [if_pos h1]
  · rw [if_neg h1]
    by_cases h2 : e.selfDestructs = true
    · rw [if_pos h2]; rfl
    · rw [if_neg h2]

/-- `Entity.add_tag` leaves the id unchanged. -/
theorem add_tag_entity_id (e : Entity) (τ : String) :
    (e.add_tag τ).entity_id = e.entity_id := by
  unfold Entity.add_tag
  split <;> rfl

/-- Folding `add_tag` leaves the id unchanged. -/
theorem foldl_add_tag_entity_id (tags : List String) (e : Entity) :
    (tags.foldl Entity.add_tag e).entity_id = e.entity_id := by
  induction tags generalizing e with
  | nil => rfl
  | cons τ rest ih => rw [List.foldl_cons, ih, add_tag_entity_id]

/-- `Entity.remove_component` leaves the id unchanged. -/
theorem remove_component_entity_id (e : Entity) (t : String) :
    ((e.remove_component t).1).entity_id = e.entity_id := by
  unfold Entity.remove_component
  rcases hp : (apop e.components t).1 with _ | c2 <;> simp only [hp]

/-- `Entity.add_component` leaves the id unchanged. -/
theorem add_component_entity_id (e : Entity) (c : Component) :
    (e.add_component c).entity_id = e.entity_id := by
  unfold Entity.add_component
  split
  · exact remove_component_entity_id e c.component_type
  · rfl

/-- `buildEntity` carries the id it is given. -/
theorem buildEntity_id (i : ℕ) (tags : List String) (a d : Bool) :
    (buildEntity i tags a d).entity_id = i := by
  unfold buildEntity
  rw [foldl_add_tag_entity_id]
  split
  · rw [add_component_entity_id]
  · rfl

/-- Index membership after one tag merge. -/
theorem tagIndexAdd_mem_iff (α : ℕ) (idx : List (String × List ℕ))
    (τ2 τ : String) (i : ℕ) :
    (∃ s, alookup (EntityManager.tagIndexAdd α idx τ2) τ = some s ∧ i ∈ s) ↔
      ((i = α ∧ τ = τ2) ∨ (∃ s, alookup idx τ = some s ∧ i ∈ s)) := by
  by_cases hτ : τ = τ2
  case neg =>
    have hlk : alookup (EntityManager.tagIndexAdd α idx τ2) τ = alookup idx τ := by
      unfold EntityManager.tagIndexAdd
      rcases alookup idx τ2 with _ | s <;>
        exact alookup_ainsert_ne _ _ _ _ (fun hc => hτ hc.symm)
    rw [hlk]
    constructor
    · exact Or.inr
    · rintro (⟨_, h2⟩ | h2)
      · exact (hτ h2).elim
      · exact h2
  case pos =>
    subst hτ
    rcases hl : alookup idx τ with _ | s
    · have hdef : EntityManager.tagIndexAdd α idx τ = ainsert idx τ [α] := by
        unfold EntityManager.tagIndexAdd
        rw [hl]
      rw [hdef]
      constructor
      · rintro ⟨s1, hs1, hmem⟩
        rw [alookup_ainsert_self] at hs1
        injection hs1 with hs1
        subst hs1
        rw [List.mem_singleton] at hmem
        exact Or.inl ⟨hmem, rfl⟩
      · rintro (⟨hiα, _⟩ | ⟨s1, hs1, _⟩)
        · exact ⟨[α], alookup_ainsert_self _ _ _, by
            rw [hiα]; exact List.mem_singleton.2 rfl⟩
        · exact Option.noConfusion hs1
    · have hdef : EntityManager.tagIndexAdd α idx τ
          = ainsert idx τ (setAdd s α) := by
        unfold EntityManager.tagIndexAdd
        rw [hl]
      rw [hdef]
      constructor
      · rintro ⟨s1, hs1, hmem⟩
        rw [alookup_ainsert_self] at hs1
        injection hs1 with hs1
        subst hs1
        rcases (mem_setAdd _ _ _).1 hmem with h1 | h2
        · exact Or.inl ⟨h1, rfl⟩
        · exact Or.inr ⟨s, rfl, h2⟩
      · rintro (⟨hiα, _⟩ | ⟨s1, hs1, hmem⟩)
        · exact ⟨setAdd s α, alookup_ainsert_self _ _ _, by
            rw [hiα]; exact (mem_setAdd _ _ _).2 (Or.inl rfl)⟩
        · injection hs1 with hs1
          subst hs1
          exact ⟨setAdd s α, alookup_ainsert_self _ _ _,
            (mem_setAdd _ _ _).2 (Or.inr hmem)⟩

/-- Index membership after merging all of an entity's tags. -/
theorem tagfold_add_mem_iff (α : ℕ) (tags : List String)
    (idx : List (String × List ℕ)) (τ : String) (i : ℕ) :
    (∃ s, alookup (tags.foldl (EntityManager.tagIndexAdd α) idx) τ = some s ∧
        i ∈ s) ↔
      ((i = α ∧ τ ∈ tags) ∨ (∃ s, alookup idx τ = some s ∧ i ∈ s)) := by
  induction tags generalizing idx with
  | nil => simp
  | cons τ2 rest ih =>
    rw [List.foldl_cons, ih, tagIndexAdd_mem_iff]
    constructor
    · rintro ((⟨h1, h2⟩) | (⟨h1, h2⟩ | h3))
      · exact Or.inl ⟨h1, List.mem_cons_of_mem _ h2⟩
      · exact Or.inl ⟨h1, h2 ▸ List.mem_cons_self _ _⟩
      · exact Or.inr h3
    · rintro (⟨h1, h2⟩ | h3)
      · rcases List.mem_cons.1 h2 with rfl | h4
        · exact Or.inr (Or.inl ⟨h1, rfl⟩)
        · exact Or.inl ⟨h1, h4⟩
      · exact Or.inr (Or.inr h3)

/-- The add flush preserves the reachable-state invariant: ids stay
key-consistent, bounded and duplicate-free, and the tag index stays
duplicate-free and exactly consistent with the table. -/
theorem flush_inv (n : ℕ) (adds : List Entity) :
    ∀ (acc : List (ℕ × Entity) × List (String × List ℕ)),
      (∀ p ∈ acc.1, p.2.entity_id = p.1 ∧ p.1 < n) →
      ((acc.1.map Prod.fst).Nodup) →
      (∀ a ∈ adds, a.entity_id < n) →
      ((adds.map Entity.entity_id).Nodup) →
      (∀ a ∈ adds, alookup acc.1 a.entity_id = none) →
      ((acc.2.map Prod.fst).Nodup) →
      (∀ p ∈ acc.2, p.2.Nodup) →
      (∀ τ s i, alookup acc.2 τ = some s → i ∈ s →
        ∃ e, alookup acc.1 i = some e ∧ τ ∈ e.tags) →
      (∀ i e, alookup acc.1 i = some e → ∀ τ ∈ e.tags,
        ∃ s, alookup acc.2 τ = some s ∧ i ∈ s) →
      ((∀ p ∈ (adds.foldl EntityManager.flushAddOne acc).1,
          p.2.entity_id = p.1 ∧ p.1 < n) ∧
       (((adds.foldl EntityManager.flushAddOne acc).1.map Prod.fst).Nodup) ∧
       (((adds.foldl EntityManager.flushAddOne acc).2.map Prod.fst).Nodup) ∧
       (∀ p ∈ (adds.foldl EntityManager.flushAddOne acc).2, p.2.Nodup) ∧
       (∀ τ s i, alookup (adds.foldl EntityManager.flushAddOne acc).2 τ = some s →
          i ∈ s → ∃ e,
          alookup (adds.foldl EntityManager.flushAddOne acc).1 i = some e ∧
            τ ∈ e.tags) ∧
       (∀ i e, alookup (adds.foldl EntityManager.flushAddOne acc).1 i = some e →
          ∀ τ ∈ e.tags,
          ∃ s, alookup (adds.foldl EntityManager.flushAddOne acc).2 τ = some s ∧
            i ∈ s)) := by
  induction adds with
  | nil =>
    intro acc hA hB _ _ _ hD hE hF hG
    exact ⟨hA, hB, hD, hE, hF, hG⟩
  | cons a rest ih =>
    intro acc hA hB hC1 hC2 hC3 hD hE hF hG
    rw [List.foldl_cons]
    have hfresh : alookup acc.1 a.entity_id = none :=
      hC3 a (List.mem_cons_self _ _)
    have hnotin : a.entity_id ∉ acc.1.map Prod.fst :=
      (alookup_eq_none_iff _ _).1 hfresh
    have haless : a.entity_id < n := hC1 a (List.mem_cons_self _ _)
    simp only [List.map_cons, List.nodup_cons] at hC2
    have htab1 : (EntityManager.flushAddOne acc a).1 = ainsert acc.1 a.entity_id a := rfl
    have hidx1 : (EntityManager.flushAddOne acc a).2
        = a.tags.foldl (EntityManager.tagIndexAdd a.entity_id) acc.2 := rfl
    refine ih _ ?_ ?_ ?_ hC2.2 ?_ ?_ ?_ ?_ ?_
    · intro p hp
      rw [htab1] at hp
      rcases mem_ainsert hp with rfl | hold
      · exact ⟨rfl, haless⟩
      · exact hA _ hold
    · rw [htab1, keys_ainsert, if_neg hnotin]
      refine List.Nodup.append hB (List.nodup_singleton _) ?_
      intro x hx hxa
      rw [List.mem_singleton] at hxa
      subst hxa
      exact hnotin hx
    · intro b hb
      exact hC1 b (List.mem_cons_of_mem _ hb)
    · intro b hb
      rw [htab1]
      have hbne : a.entity_id ≠ b.entity_id := by
        intro hc
        exact hC2.1 (hc ▸ List.mem_map.2 ⟨b, hb, rfl⟩)
      rw [alookup_ainsert_ne _ _ _ _ hbne]
      exact hC3 b (List.mem_cons_of_mem _ hb)
    · rw [hidx1]
      exact (tagfold_add_conds n a.entity_id (Nat.ne_of_lt haless)
        (acc.2.map Prod.fst) a.tags acc.2 hD hE
        (fun p hp _ => List.mem_map.2 ⟨p, hp, rfl⟩)).1
    · rw [hidx1]
      exact (tagfold_add_conds n a.entity_id (Nat.ne_of_lt haless)
        (acc.2.map Prod.fst) a.tags acc.2 hD hE
        (fun p hp _ => List.mem_map.2 ⟨p, hp, rfl⟩)).2.1
    · intro τ s i hs hi
      rw [hidx1] at hs
      rw [htab1]
      rcases (tagfold_add_mem_iff a.entity_id a.tags acc.2 τ i).1 ⟨s, hs, hi⟩
        with ⟨rfl, hτa⟩ | ⟨s0, hs0, hi0⟩
      · exact ⟨a, alookup_ainsert_self _ _ _, hτa⟩
      · obtain ⟨e, he, hτe⟩ := hF τ s0 i hs0 hi0
        have hine : a.entity_id ≠ i := by
          intro hc
          rw [hc] at hfresh
          rw [hfresh] at he
          exact Option.noConfusion he
        rw [alookup_ainsert_ne _ _ _ _ hine]
        exact ⟨e, he, hτe⟩
    · intro i e he τ hτ
      rw [htab1] at he
      rw [hidx1]
      rw [alookup_ainsert] at he
      by_cases hie : a.entity_id = i
      · rw [if_pos hie] at he
        injection he with he
        subst he
        exact (tagfold_add_mem_iff a.entity_id a.tags acc.2 τ i).2
          (Or.inl ⟨hie.symm, hτ⟩)
      · rw [if_neg hie] at he
        obtain ⟨s, hs, hi⟩ := hG i e he τ hτ
        exact (tagfold_add_mem_iff a.entity_id a.tags acc.2 τ i).2
          (Or.inr ⟨s, hs, hi⟩)

/-- One update-pass step changes a table value only by `entity.update`,
which preserves the tag list and the id. -/
theorem updateStep_map_lookup (dt : ℚ)
    (acc : List (ℕ × Entity) × List ℕ × List ℕ) (id2 i : ℕ) :
    ((alookup (EntityManager.updateStep dt acc id2).1 i).map Entity.tags
      = (alookup acc.1 i).map Entity.tags) ∧
    ((alookup (EntityManager.updateStep dt acc id2).1 i).map Entity.entity_id
      = (alookup acc.1 i).map Entity.entity_id) := by
  by_cases hj : id2 = i
  · subst hj
    unfold EntityManager.updateStep
    rcases hl : alookup acc.1 id2 with _ | e
    · constructor
      · show Option.map Entity.tags (alookup acc.1 id2)
          = Option.map Entity.tags none
        rw [hl]
      · show Option.map Entity.entity_id (alookup acc.1 id2)
          = Option.map Entity.entity_id none
        rw [hl]
    · simp only [hl]
      have hres : ∀ (x : Entity),
          alookup (ainsert acc.1 id2 x) id2 = some x :=
        fun x => alookup_ainsert_self _ _ _
      by_cases hc : (e.active && !e.marked_for_destruction) = true
      · simp only [hc, if_true]
        constructor
        · rw [hres]
          simp [entity_update_tags]
        · rw [hres]
          simp [entity_update_id]
      · simp only [hc, if_false, Bool.false_eq_true]
        constructor
        · rw [hres]
        · rw [hres]
  · rw [updateStep_lookup_ne dt acc id2 i hj]
    exact ⟨rfl, rfl⟩

/-- Across the whole update pass, every table value keeps its tag list and
its id. -/
theorem updatePass_map_lookup (dt : ℚ) (ids : List ℕ) :
    ∀ (acc : List (ℕ × Entity) × List ℕ × List ℕ) (i : ℕ),
      ((alookup (ids.foldl (EntityManager.updateStep dt) acc).1 i).map
          Entity.tags = (alookup acc.1 i).map Entity.tags) ∧
      ((alookup (ids.foldl (EntityManager.updateStep dt) acc).1 i).map
          Entity.entity_id = (alookup acc.1 i).map Entity.entity_id) := by
  induction ids with
  | nil => intro acc i; exact ⟨rfl, rfl⟩
  | cons id2 rest ih =>
    intro acc i
    rw [List.foldl_cons]
    exact ⟨(ih _ i).1.trans (updateStep_map_lookup dt acc id2 i).1,
      (ih _ i).2.trans (updateStep_map_lookup dt acc id2 i).2⟩

/-- Discarding a foreign id from one tag leaves every other id's index
memberships unchanged. -/
theorem tagIndexDiscard_mem_ne (id3 i : ℕ) (hne : i ≠ id3)
    (idx : List (String × List ℕ)) (τ2 τ : String)
    (hD : (idx.map Prod.fst).Nodup) :
    (∃ s, alookup (EntityManager.tagIndexDiscard id3 idx τ2) τ = some s ∧ i ∈ s)
      ↔ (∃ s, alookup idx τ = some s ∧ i ∈ s) := by
  by_cases hτ : τ = τ2
  case neg =>
    have hlk : alookup (EntityManager.tagIndexDiscard id3 idx τ2) τ
        = alookup idx τ := by
      unfold EntityManager.tagIndexDiscard
      rcases alookup idx τ2 with _ | s
      · rfl
      · simp only []
        split
        · exact alookup_aerase_ne _ _ _ (fun hc => hτ hc.symm)
        · exact alookup_ainsert_ne _ _ _ _ (fun hc => hτ hc.symm)
    rw [hlk]
  case pos =>
    subst hτ
    rcases hl : alookup idx τ with _ | s
    · have hdef : EntityManager.tagIndexDiscard id3 idx τ = idx := by
        unfold EntityManager.tagIndexDiscard
        rw [hl]
      rw [hdef, hl]
    · by_cases hnil : s.erase id3 = []
      · have hdef : EntityManager.tagIndexDiscard id3 idx τ = aerase idx τ := by
          unfold EntityManager.tagIndexDiscard
          rw [hl]
          simp [hnil]
        rw [hdef]
        constructor
        · rintro ⟨s1, hs1, _⟩
          rw [alookup_aerase_self _ _ hD] at hs1
          exact Option.noConfusion hs1
        · rintro ⟨s1, hs1, hi1⟩
          injection hs1 with hs1
          subst hs1
          have hmem : i ∈ s.erase id3 := (List.mem_erase_of_ne hne).2 hi1
          rw [hnil] at hmem
          cases hmem
      · have hdef : EntityManager.tagIndexDiscard id3 idx τ
            = ainsert idx τ (s.erase id3) := by
          unfold EntityManager.tagIndexDiscard
          rw [hl]
          simp [hnil]
        rw [hdef]
        constructor
        · rintro ⟨s1, hs1, hi1⟩
          rw [alookup_ainsert_self] at hs1
          injection hs1 with hs1
          subst hs1
          exact ⟨s, rfl, List.mem_of_mem_erase hi1⟩
        · rintro ⟨s1, hs1, hi1⟩
          injection hs1 with hs1
          subst hs1
          exact ⟨s.erase id3, alookup_ainsert_self _ _ _,
            (List.mem_erase_of_ne hne).2 hi1⟩

/-- Discarding all of a foreign entity's tags leaves every other id's
index memberships unchanged. -/
theorem discardTags_mem_ne (id3 i : ℕ) (hne : i ≠ id3) (tags : List String) :
    ∀ (idx : List (String × List ℕ)), ((idx.map Prod.fst).Nodup) →
      (∀ p ∈ idx, p.2.Nodup) → ∀ τ,
      ((∃ s, alookup (EntityManager.discardTags id3 idx tags) τ = some s ∧
          i ∈ s) ↔ (∃ s, alookup idx τ = some s ∧ i ∈ s)) := by
  unfold EntityManager.discardTags
  induction tags with
  | nil => intro idx _ _ τ; exact Iff.rfl
  | cons τ2 rest ih =>
    intro idx hD hE τ
    rw [List.foldl_cons]
    obtain ⟨hD2, hE2, _⟩ := tagIndexDiscard_conds (id3 + 1) id3
      (Nat.ne_of_lt (Nat.lt_succ_self id3)) (idx.map Prod.fst) idx τ2 hD hE
      (fun p hp _ => List.mem_map.2 ⟨p, hp, rfl⟩)
    rw [ih _ hD2 hE2 τ]
    exact tagIndexDiscard_mem_ne id3 i hne idx τ2 τ hD

/-- One removal-flush step preserves the reachable-state invariant. -/
theorem flushRemoveOne_inv (n : ℕ)
    (acc : List (ℕ × Entity) × List (String × List ℕ)) (id3 : ℕ)
    (hA : ∀ p ∈ acc.1, p.2.entity_id = p.1 ∧ p.1 < n)
    (hB : (acc.1.map Prod.fst).Nodup)
    (hD : (acc.2.map Prod.fst).Nodup)
    (hE : ∀ p ∈ acc.2, p.2.Nodup)
    (hF : ∀ τ s i, alookup acc.2 τ = some s → i ∈ s →
      ∃ e, alookup acc.1 i = some e ∧ τ ∈ e.tags)
    (hG : ∀ i e, alookup acc.1 i = some e → ∀ τ ∈ e.tags,
      ∃ s, alookup acc.2 τ = some s ∧ i ∈ s) :
    (∀ p ∈ (EntityManager.flushRemoveOne acc id3).1,
        p.2.entity_id = p.1 ∧ p.1 < n) ∧
    (((EntityManager.flushRemoveOne acc id3).1.map Prod.fst).Nodup) ∧
    (((EntityManager.flushRemoveOne acc id3).2.map Prod.fst).Nodup) ∧
    (∀ p ∈ (EntityManager.flushRemoveOne acc id3).2, p.2.Nodup) ∧
    (∀ τ s i, alookup (EntityManager.flushRemoveOne acc id3).2 τ = some s →
      i ∈ s → ∃ e,
      alookup (EntityManager.flushRemoveOne acc id3).1 i = some e ∧
        τ ∈ e.tags) ∧
    (∀ i e, alookup (EntityManager.flushRemoveOne acc id3).1 i = some e →
      ∀ τ ∈ e.tags,
      ∃ s, alookup (EntityManager.flushRemoveOne acc id3).2 τ = some s ∧
        i ∈ s) := by
  have htab := flushRemoveOne_table acc id3
  have hA2 : ∀ p ∈ (EntityManager.flushRemoveOne acc id3).1,
      p.2.entity_id = p.1 ∧ p.1 < n := by
    rw [htab]
    intro p hp
    exact hA p (mem_apop hp)
  have hB2 : (((EntityManager.flushRemoveOne acc id3).1).map Prod.fst).Nodup := by
    rw [htab, keys_apop]
    exact List.Nodup.erase _ hB
  rcases hp : (apop acc.1 id3).1 with _ | e3
  · have hidx : (EntityManager.flushRemoveOne acc id3).2 = acc.2 := by
      unfold EntityManager.flushRemoveOne
      simp only [hp]
    have hnone : alookup acc.1 id3 = none := by
      rw [← apop_fst]; exact hp
    refine ⟨hA2, hB2, by rw [hidx]; exact hD, by rw [hidx]; exact hE, ?_, ?_⟩
    · intro τ s i hs hi
      rw [hidx] at hs
      obtain ⟨e, he, hτ⟩ := hF τ s i hs hi
      have hine : id3 ≠ i := by
        intro hc
        rw [hc] at hnone
        rw [hnone] at he
        exact Option.noConfusion he
      rw [htab, alookup_apop_ne _ _ _ hine]
      exact ⟨e, he, hτ⟩
    · intro i e he τ hτ
      rw [htab] at he
      have hine : id3 ≠ i := by
        intro hc
        subst hc
        rw [alookup_apop_self _ _ hB] at he
        exact Option.noConfusion he
      rw [alookup_apop_ne _ _ _ hine] at he
      rw [hidx]
      exact hG i e he τ hτ
  · have hidx : (EntityManager.flushRemoveOne acc id3).2
        = EntityManager.discardTags id3 acc.2 e3.tags := by
      unfold EntityManager.flushRemoveOne
      simp only [hp]
    have hlk3 : alookup acc.1 id3 = some e3 := by
      rw [← apop_fst]; exact hp
    have hfwd3 : ∀ p ∈ acc.2, id3 ∈ p.2 → p.1 ∈ e3.tags := by
      intro p hp2 hi3
      obtain ⟨e, he, hτ⟩ := hF p.1 p.2 id3 (alookup_of_mem_nodup hD hp2) hi3
      rw [hlk3] at he
      injection he with he
      subst he
      exact hτ
    have hcleared := discardTags_clears id3 e3.tags acc.2 hD hE hfwd3
    obtain ⟨hD2, hE2, _⟩ := discardTags_conds (id3 + 1) id3
      (Nat.ne_of_lt (Nat.lt_succ_self id3)) (acc.2.map Prod.fst) e3.tags acc.2
      hD hE (fun p hp2 _ => List.mem_map.2 ⟨p, hp2, rfl⟩)
    refine ⟨hA2, hB2, by rw [hidx]; exact hD2, by rw [hidx]; exact hE2, ?_, ?_⟩
    · intro τ s i hs hi
      rw [hidx] at hs
      by_cases hii : i = id3
      · subst hii
        exact absurd hi (hcleared _ (alookup_mem hs))
      · obtain ⟨s0, hs0, hi0⟩ :=
          (discardTags_mem_ne id3 i hii e3.tags acc.2 hD hE τ).1 ⟨s, hs, hi⟩
        obtain ⟨e, he, hτ⟩ := hF τ s0 i hs0 hi0
        rw [htab, alookup_apop_ne _ _ _ (fun hc => hii hc.symm)]
        exact ⟨e, he, hτ⟩
    · intro i e he τ hτ
      rw [htab] at he
      have hii : id3 ≠ i := by
        intro hc
        subst hc
        rw [alookup_apop_self _ _ hB] at he
        exact Option.noConfusion he
      rw [alookup_apop_ne _ _ _ hii] at he
      obtain ⟨s, hs, hi⟩ := hG i e he τ hτ
      rw [hidx]
      exact (discardTags_mem_ne id3 i (fun hc => hii hc.symm) e3.tags acc.2
        hD hE τ).2 ⟨s, hs, hi⟩

/-- The whole removal flush preserves the reachable-state invariant. -/
theorem removalsPass_inv (n : ℕ) (queue : List ℕ) :
    ∀ (acc : List (ℕ × Entity) × List (String × List ℕ)),
      (∀ p ∈ acc.1, p.2.entity_id = p.1 ∧ p.1 < n) →
      ((acc.1.map Prod.fst).Nodup) →
      ((acc.2.map Prod.fst).Nodup) →
      (∀ p ∈ acc.2, p.2.Nodup) →
      (∀ τ s i, alookup acc.2 τ = some s → i ∈ s →
        ∃ e, alookup acc.1 i = some e ∧ τ ∈ e.tags) →
      (∀ i e, alookup acc.1 i = some e → ∀ τ ∈ e.tags,
        ∃ s, alookup acc.2 τ = some s ∧ i ∈ s) →
      ((∀ p ∈ (queue.foldl EntityManager.flushRemoveOne acc).1,
          p.2.entity_id = p.1 ∧ p.1 < n) ∧
       (((queue.foldl EntityManager.flushRemoveOne acc).1.map Prod.fst).Nodup) ∧
       (((queue.foldl EntityManager.flushRemoveOne acc).2.map Prod.fst).Nodup) ∧
       (∀ p ∈ (queue.foldl EntityManager.flushRemoveOne acc).2, p.2.Nodup) ∧
       (∀ τ s i,
          alookup (queue.foldl EntityManager.flushRemoveOne acc).2 τ = some s →
          i ∈ s → ∃ e,
          alookup (queue.foldl EntityManager.flushRemoveOne acc).1 i = some e ∧
            τ ∈ e.tags) ∧
       (∀ i e,
          alookup (queue.foldl EntityManager.flushRemoveOne acc).1 i = some e →
          ∀ τ ∈ e.tags,
          ∃ s, alookup (queue.foldl EntityManager.flushRemoveOne acc).2 τ
            = some s ∧ i ∈ s)) := by
  induction queue with
  | nil =>
    intro acc hA hB hD hE hF hG
    exact ⟨hA, hB, hD, hE, hF, hG⟩
  | cons id3 rest ih =>
    intro acc hA hB hD hE hF hG
    rw [List.foldl_cons]
    obtain ⟨h1, h2, h3, h4, h5, h6⟩ :=
      flushRemoveOne_inv n acc id3 hA hB hD hE hF hG
    exact ih _ h1 h2 h3 h4 h5 h6

/-- `mutateEntity` never touches the tag index or the pending queues. -/
theorem mutateEntity_tag_index (m : EntityManager) (id0 : ℕ)
    (f : Entity → Entity) :
    (mutateEntity m id0 f).tag_index = m.tag_index := by
  unfold mutateEntity
  rcases alookup m.entities id0 <;> rfl

/-- `mutateEntity` leaves the pending-add queue unchanged. -/
theorem mutateEntity_to_add (m : EntityManager) (id0 : ℕ)
    (f : Entity → Entity) :
    (mutateEntity m id0 f).entities_to_add = m.entities_to_add := by
  unfold mutateEntity
  rcases alookup m.entities id0 <;> rfl

/-- In-place mutation of one entity by a tag- and id-preserving function
(such as `destroy`) preserves the reachable-state invariant. -/
theorem mutateEntity_inv (n : ℕ) (m : EntityManager) (id0 : ℕ)
    (f : Entity → Entity)
    (hft : ∀ e, (f e).tags = e.tags) (hfi : ∀ e, (f e).entity_id = e.entity_id)
    (hA : ∀ p ∈ m.entities, p.2.entity_id = p.1 ∧ p.1 < n)
    (hB : (m.entities.map Prod.fst).Nodup)
    (hF : ∀ τ s i, alookup m.tag_index τ = some s → i ∈ s →
      ∃ e, alookup m.entities i = some e ∧ τ ∈ e.tags)
    (hG : ∀ i e, alookup m.entities i = some e → ∀ τ ∈ e.tags,
      ∃ s, alookup m.tag_index τ = some s ∧ i ∈ s) :
    (∀ p ∈ (mutateEntity m id0 f).entities, p.2.entity_id = p.1 ∧ p.1 < n) ∧
    (((mutateEntity m id0 f).entities.map Prod.fst).Nodup) ∧
    (∀ τ s i, alookup m.tag_index τ = some s → i ∈ s →
      ∃ e, alookup (mutateEntity m id0 f).entities i = some e ∧ τ ∈ e.tags) ∧
    (∀ i e, alookup (mutateEntity m id0 f).entities i = some e →
      ∀ τ ∈ e.tags, ∃ s, alookup m.tag_index τ = some s ∧ i ∈ s) := by
  rcases hl : alookup m.entities id0 with _ | e0
  · have hm : mutateEntity m id0 f = m := by
      unfold mutateEntity
      rw [hl]
    rw [hm]
    exact ⟨hA, hB, hF, hG⟩
  · have hm : (mutateEntity m id0 f).entities
        = ainsert m.entities id0 (f e0) := by
      unfold mutateEntity
      rw [hl]
    have hid0 := hA _ (alookup_mem hl)
    rw [hm]
    refine ⟨?_, ?_, ?_, ?_⟩
    · intro p hp
      rcases mem_ainsert hp with rfl | hold
      · exact ⟨by rw [hfi]; exact hid0.1, hid0.2⟩
      · exact hA _ hold
    · rw [keys_ainsert,
        if_pos ((alookup_isSome_iff _ _).1 (by rw [hl]; rfl))]
      exact hB
    · intro τ s i hs hi
      obtain ⟨e, he, hτ⟩ := hF τ s i hs hi
      by_cases hii : id0 = i
      · subst hii
        rw [hl] at he
        injection he with he
        subst he
        exact ⟨f e0, alookup_ainsert_self _ _ _, by rw [hft]; exact hτ⟩
      · rw [alookup_ainsert_ne _ _ _ _ hii]
        exact ⟨e, he, hτ⟩
    · intro i e he τ hτ
      rw [alookup_ainsert] at he
      by_cases hii : id0 = i
      · rw [if_pos hii] at he
        injection he with he
        subst he
        rw [hft] at hτ
        subst hii
        exact hG id0 e0 hl τ hτ
      · rw [if_neg hii] at he
        exact hG i e he τ hτ

/-- A full `update(dt)` call preserves the reachable-state invariant and in
particular leaves the tag index exactly consistent with the table. -/
theorem update_inv (n : ℕ) (m : EntityManager) (dt : ℚ)
    (hA : ∀ p ∈ m.entities, p.2.entity_id = p.1 ∧ p.1 < n)
    (hB : (m.entities.map Prod.fst).Nodup)
    (hC1 : ∀ a ∈ m.entities_to_add, a.entity_id < n)
    (hC2 : (m.entities_to_add.map Entity.entity_id).Nodup)
    (hC3 : ∀ a ∈ m.entities_to_add, alookup m.entities a.entity_id = none)
    (hD : (m.tag_index.map Prod.fst).Nodup)
    (hE : ∀ p ∈ m.tag_index, p.2.Nodup)
    (hF : ∀ τ s i, alookup m.tag_index τ = some s → i ∈ s →
      ∃ e, alookup m.entities i = some e ∧ τ ∈ e.tags)
    (hG : ∀ i e, alookup m.entities i = some e → ∀ τ ∈ e.tags,
      ∃ s, alookup m.tag_index τ = some s ∧ i ∈ s) :
    (∀ p ∈ (m.update dt).entities, p.2.entity_id = p.1 ∧ p.1 < n) ∧
    (((m.update dt).entities.map Prod.fst).Nodup) ∧
    (((m.update dt).tag_index.map Prod.fst).Nodup) ∧
    (∀ p ∈ (m.update dt).tag_index, p.2.Nodup) ∧
    (∀ τ s i, alookup (m.update dt).tag_index τ = some s → i ∈ s →
      ∃ e, alookup (m.update dt).entities i = some e ∧ τ ∈ e.tags) ∧
    (∀ i e, alookup (m.update dt).entities i = some e → ∀ τ ∈ e.tags,
      ∃ s, alookup (m.update dt).tag_index τ = some s ∧ i ∈ s) := by
  obtain ⟨A1, B1, D1, E1, F1, G1⟩ := flush_inv n m.entities_to_add
    (m.entities, m.tag_index) hA hB hC1 hC2 hC3 hD hE hF hG
  have hkeys2 := updatePass_keys dt
    ((m.entities_to_add.foldl EntityManager.flushAddOne
      (m.entities, m.tag_index)).1.map Prod.fst)
    ((m.entities_to_add.foldl EntityManager.flushAddOne
      (m.entities, m.tag_index)).1, m.entities_to_remove, ([] : List ℕ))
  have B2 : (((((m.entities_to_add.foldl EntityManager.flushAddOne
      (m.entities, m.tag_index)).1.map Prod.fst).foldl
      (EntityManager.updateStep dt)
      ((m.entities_to_add.foldl EntityManager.flushAddOne
        (m.entities, m.tag_index)).1, m.entities_to_remove,
        ([] : List ℕ))).1).map Prod.fst).Nodup := by
    rw [hkeys2]
    exact B1
  have hmap := updatePass_map_lookup dt
    ((m.entities_to_add.foldl EntityManager.flushAddOne
      (m.entities, m.tag_index)).1.map Prod.fst)
    ((m.entities_to_add.foldl EntityManager.flushAddOne
      (m.entities, m.tag_index)).1, m.entities_to_remove, ([] : List ℕ))
  have A2 : ∀ p ∈ ((((m.entities_to_add.foldl EntityManager.flushAddOne
      (m.entities, m.tag_index)).1.map Prod.fst).foldl
      (EntityManager.updateStep dt)
      ((m.entities_to_add.foldl EntityManager.flushAddOne
        (m.entities, m.tag_index)).1, m.entities_to_remove,
        ([] : List ℕ))).1), p.2.entity_id = p.1 ∧ p.1 < n := by
    intro p hp
    have hlk := alookup_of_mem_nodup B2 hp
    have hm := (hmap p.1).2
    rw [hlk] at hm
    rcases hl0 : alookup (m.entities_to_add.foldl EntityManager.flushAddOne
        (m.entities, m.tag_index)).1 p.1 with _ | e0
    · rw [hl0] at hm
      exact Option.noConfusion hm
    · rw [hl0] at hm
      simp only [Option.map] at hm
      injection hm with hm
      obtain ⟨hid, hlt⟩ := A1 (p.1, e0) (alookup_mem hl0)
      exact ⟨hm.trans hid, hlt⟩
  have F2 : ∀ τ s i, alookup (m.entities_to_add.foldl EntityManager.flushAddOne
      (m.entities, m.tag_index)).2 τ = some s → i ∈ s →
      ∃ e2, alookup ((((m.entities_to_add.foldl EntityManager.flushAddOne
        (m.entities, m.tag_index)).1.map Prod.fst).foldl
        (EntityManager.updateStep dt)
        ((m.entities_to_add.foldl EntityManager.flushAddOne
          (m.entities, m.tag_index)).1, m.entities_to_remove,
          ([] : List ℕ))).1) i = some e2 ∧ τ ∈ e2.tags := by
    intro τ s i hs hi
    obtain ⟨e, he, hτ⟩ := F1 τ s i hs hi
    have hm := (hmap i).1
    rw [he] at hm
    rcases hl2 : alookup ((((m.entities_to_add.foldl EntityManager.flushAddOne
        (m.entities, m.tag_index)).1.map Prod.fst).foldl
        (EntityManager.updateStep dt)
        ((m.entities_to_add.foldl EntityManager.flushAddOne
          (m.entities, m.tag_index)).1, m.entities_to_remove,
          ([] : List ℕ))).1) i with _ | e2
    · rw [hl2] at hm
      exact Option.noConfusion hm
    · rw [hl2] at hm
      simp only [Option.map] at hm
      injection hm with hm
      exact ⟨e2, rfl, by rw [hm]; exact hτ⟩
  have G2 : ∀ i e2, alookup ((((m.entities_to_add.foldl EntityManager.flushAddOne
      (m.entities, m.tag_index)).1.map Prod.fst).foldl
      (EntityManager.updateStep dt)
      ((m.entities_to_add.foldl EntityManager.flushAddOne
        (m.entities, m.tag_index)).1, m.entities_to_remove,
        ([] : List ℕ))).1) i = some e2 → ∀ τ ∈ e2.tags,
      ∃ s, alookup (m.entities_to_add.foldl EntityManager.flushAddOne
        (m.entities, m.tag_index)).2 τ = some s ∧ i ∈ s := by
    intro i e2 he2 τ hτ
    have hm := (hmap i).1
    rw [he2] at hm
    rcases hl0 : alookup (m.entities_to_add.foldl EntityManager.flushAddOne
        (m.entities, m.tag_index)).1 i with _ | e0
    · rw [hl0] at hm
      exact Option.noConfusion hm
    · rw [hl0] at hm
      simp only [Option.map] at hm
      injection hm with hm
      exact G1 i e0 hl0 τ (by rw [← hm]; exact hτ)
  exact removalsPass_inv n
    ((((m.entities_to_add.foldl EntityManager.flushAddOne
      (m.entities, m.tag_index)).1.map Prod.fst).foldl
      (EntityManager.updateStep dt)
      ((m.entities_to_add.foldl EntityManager.flushAddOne
        (m.entities, m.tag_index)).1, m.entities_to_remove,
        ([] : List ℕ))).2.1)
    (((((m.entities_to_add.foldl EntityManager.flushAddOne
      (m.entities, m.tag_index)).1.map Prod.fst).foldl
      (EntityManager.updateStep dt)
      ((m.entities_to_add.foldl EntityManager.flushAddOne
        (m.entities, m.tag_index)).1, m.entities_to_remove,
        ([] : List ℕ))).1),
      ((m.entities_to_add.foldl EntityManager.flushAddOne
        (m.entities, m.tag_index)).2))
    A2 B2 D1 E1 F2 G2

/-- `mutateEntity` does not change the set of table keys. -/
theorem mutateEntity_keys (m : EntityManager) (id0 : ℕ) (f : Entity → Entity) :
    (mutateEntity m id0 f).entities.map Prod.fst = m.entities.map Prod.fst := by
  unfold mutateEntity
  rcases hl : alookup m.entities id0 with _ | e0
  · rfl
  · simp only []
    rw [keys_ainsert, if_pos ((alookup_isSome_iff _ _).1 (by rw [hl]; rfl))]

/-- Any single non-tag-mutating public operation preserves the
reachable-state invariant. -/
theorem stepOp_inv (w : World) (op : Op) (hop : op.isTagMutation = false)
    (hS : StructInv w)
    (hD : ((w.mgr.tag_index.map Prod.fst).Nodup))
    (hE : ∀ p ∈ w.mgr.tag_index, p.2.Nodup)
    (hF : ∀ τ s i, alookup w.mgr.tag_index τ = some s → i ∈ s →
      ∃ e, alookup w.mgr.entities i = some e ∧ τ ∈ e.tags)
    (hG : ∀ i e, alookup w.mgr.entities i = some e → ∀ τ ∈ e.tags,
      ∃ s, alookup w.mgr.tag_index τ = some s ∧ i ∈ s) :
    StructInv (stepOp w op) ∧
    (((stepOp w op).mgr.tag_index.map Prod.fst).Nodup) ∧
    (∀ p ∈ (stepOp w op).mgr.tag_index, p.2.Nodup) ∧
    (∀ τ s i, alookup (stepOp w op).mgr.tag_index τ = some s → i ∈ s →
      ∃ e, alookup (stepOp w op).mgr.entities i = some e ∧ τ ∈ e.tags) ∧
    (∀ i e, alookup (stepOp w op).mgr.entities i = some e → ∀ τ ∈ e.tags,
      ∃ s, alookup (stepOp w op).mgr.tag_index τ = some s ∧ i ∈ s) := by
  obtain ⟨hA, hB, hC1, hC2, hC3⟩ := hS
  cases op with
  | opAdd tags active d =>
    refine ⟨⟨?_, hB, ?_, ?_, ?_⟩, hD, hE, hF, hG⟩
    · intro p hp
      obtain ⟨h1, h2⟩ := hA p hp
      exact ⟨h1, Nat.lt_succ_of_lt h2⟩
    · intro a ha
      rcases List.mem_append.1 ha with h1 | h2
      · exact Nat.lt_succ_of_lt (hC1 a h1)
      · rw [List.mem_singleton] at h2
        subst h2
        rw [buildEntity_id]
        exact Nat.lt_succ_self _
    · show ((w.mgr.entities_to_add
        ++ [buildEntity w.nextId tags active d]).map Entity.entity_id).Nodup
      rw [List.map_append]
      refine List.Nodup.append hC2 ?_ ?_
      · exact List.nodup_singleton _
      · intro x hx hx2
        simp only [List.map_cons, List.map_nil, List.mem_singleton,
          buildEntity_id] at hx2
        subst hx2
        obtain ⟨a, ha, haid⟩ := List.mem_map.1 hx
        exact Nat.lt_irrefl _ (haid ▸ hC1 a ha)
    · intro a ha
      rcases List.mem_append.1 ha with h1 | h2
      · exact hC3 a h1
      · rw [List.mem_singleton] at h2
        subst h2
        rw [buildEntity_id, alookup_eq_none_iff]
        intro hmem
        obtain ⟨p, hp, hpid⟩ := List.mem_map.1 hmem
        exact Nat.lt_irrefl _ (hpid ▸ (hA p hp).2)
  | opRemove id0 =>
    have he : (EntityManager.remove_entity w.mgr id0).entities
        = w.mgr.entities := by
      unfold EntityManager.remove_entity
      split <;> rfl
    have hi : (EntityManager.remove_entity w.mgr id0).tag_index
        = w.mgr.tag_index := by
      unfold EntityManager.remove_entity
      split <;> rfl
    have hpd : (EntityManager.remove_entity w.mgr id0).entities_to_add
        = w.mgr.entities_to_add := by
      unfold EntityManager.remove_entity
      split <;> rfl
    refine ⟨⟨?_, ?_, ?_, ?_, ?_⟩, ?_, ?_, ?_, ?_⟩
    · show ∀ p ∈ (EntityManager.remove_entity w.mgr id0).entities, _
      rw [he]; exact hA
    · show ((EntityManager.remove_entity w.mgr id0).entities.map Prod.fst).Nodup
      rw [he]; exact hB
    · show ∀ a ∈ (EntityManager.remove_entity w.mgr id0).entities_to_add, _
      rw [hpd]; exact hC1
    · show ((EntityManager.remove_entity w.mgr id0).entities_to_add.map
        Entity.entity_id).Nodup
      rw [hpd]; exact hC2
    · show ∀ a ∈ (EntityManager.remove_entity w.mgr id0).entities_to_add,
        alookup (EntityManager.remove_entity w.mgr id0).entities _ = none
      rw [hpd, he]; exact hC3
    · show ((EntityManager.remove_entity w.mgr id0).tag_index.map Prod.fst).Nodup
      rw [hi]; exact hD
    · show ∀ p ∈ (EntityManager.remove_entity w.mgr id0).tag_index, p.2.Nodup
      rw [hi]; exact hE
    · intro τ s i hs hii
      simp only [stepOp] at hs ⊢
      rw [hi] at hs
      rw [he]
      exact hF τ s i hs hii
    · intro i e hee τ hτ
      simp only [stepOp] at hee ⊢
      rw [he] at hee
      rw [hi]
      exact hG i e hee τ hτ
  | opUpdate dt =>
    obtain ⟨A2, B2, D2, E2, F2, G2⟩ := update_inv w.nextId w.mgr dt
      hA hB hC1 hC2 hC3 hD hE hF hG
    refine ⟨⟨A2, B2, ?_, ?_, ?_⟩, D2, E2, F2, G2⟩
    · intro a ha
      exact absurd ha (List.not_mem_nil a)
    · exact List.nodup_nil
    · intro a ha
      exact absurd ha (List.not_mem_nil a)
  | opDestroy id0 =>
    obtain ⟨A2, B2, F2, G2⟩ := mutateEntity_inv w.nextId w.mgr id0
      (fun e => (e.destroy).1) (fun e => rfl) (fun e => rfl) hA hB hF hG
    refine ⟨⟨A2, B2, ?_, ?_, ?_⟩, ?_, ?_, ?_, ?_⟩
    · show ∀ a ∈ (mutateEntity w.mgr id0 _).entities_to_add, _
      rw [mutateEntity_to_add]; exact hC1
    · show ((mutateEntity w.mgr id0 _).entities_to_add.map
        Entity.entity_id).Nodup
      rw [mutateEntity_to_add]; exact hC2
    · intro a ha
      simp only [stepOp] at ha ⊢
      rw [mutateEntity_to_add] at ha
      rw [alookup_eq_none_iff, mutateEntity_keys]
      exact (alookup_eq_none_iff _ _).1 (hC3 a ha)
    · show ((mutateEntity w.mgr id0 _).tag_index.map Prod.fst).Nodup
      rw [mutateEntity_tag_index]; exact hD
    · show ∀ p ∈ (mutateEntity w.mgr id0 _).tag_index, p.2.Nodup
      rw [mutateEntity_tag_index]; exact hE
    · intro τ s i hs hii
      simp only [stepOp] at hs ⊢
      rw [mutateEntity_tag_index] at hs
      exact F2 τ s i hs hii
    · intro i e hee τ hτ
      simp only [stepOp] at hee ⊢
      rw [mutateEntity_tag_index]
      exact G2 i e hee τ hτ
  | opAddTag id0 τ0 =>
    exact absurd hop (by simp [Op.isTagMutation])
  | opRemoveTag id0 τ0 =>
    exact absurd hop (by simp [Op.isTagMutation])

/-- C2 counterexample: add an untagged entity, flush it in with one
`update`, then give it a tag through `add_tag` — the entity now carries
`"enemy"` but the tag index has no entry for it, refuting the invariant as
claimed (which includes tag gain/loss via `add_tag`/`remove_tag` after
flush-in). -/
theorem c2_counterexample :
    ¬ TagInvariant (applyOps
      [.opAdd [] true false, .opUpdate 1, .opAddTag 0 "enemy"]).mgr := by
  decide

/-- C2 (amended): for every sequence of public operations that does **not**
mutate a flushed-in entity's tag list through `add_tag`/`remove_tag`
(additions, removals, updates and destruction are all allowed), every
reachable state — in particular every state after a completed `update(dt)`
— satisfies the tag-index/table consistency invariant. -/
theorem c2_tag_index_consistency (ops : List Op)
    (hops : ∀ op ∈ ops, op.isTagMutation = false) :
    TagInvariant (applyOps ops).mgr := by
  have main : ∀ (l : List Op) (w : World), (∀ op ∈ l, op.isTagMutation = false) →
      StructInv w →
      ((w.mgr.tag_index.map Prod.fst).Nodup) →
      (∀ p ∈ w.mgr.tag_index, p.2.Nodup) →
      (∀ τ s i, alookup w.mgr.tag_index τ = some s → i ∈ s →
        ∃ e, alookup w.mgr.entities i = some e ∧ τ ∈ e.tags) →
      (∀ i e, alookup w.mgr.entities i = some e → ∀ τ ∈ e.tags,
        ∃ s, alookup w.mgr.tag_index τ = some s ∧ i ∈ s) →
      (StructInv (l.foldl stepOp w) ∧
       (((l.foldl stepOp w).mgr.tag_index.map Prod.fst).Nodup) ∧
       (∀ p ∈ (l.foldl stepOp w).mgr.tag_index, p.2.Nodup) ∧
       (∀ τ s i, alookup (l.foldl stepOp w).mgr.tag_index τ = some s → i ∈ s →
         ∃ e, alookup (l.foldl stepOp w).mgr.entities i = some e ∧ τ ∈ e.tags) ∧
       (∀ i e, alookup (l.foldl stepOp w).mgr.entities i = some e →
         ∀ τ ∈ e.tags,
         ∃ s, alookup (l.foldl stepOp w).mgr.tag_index τ = some s ∧ i ∈ s)) := by
    intro l
    induction l with
    | nil =>
      intro w _ hS hD hE hF hG
      exact ⟨hS, hD, hE, hF, hG⟩
    | cons op rest ih =>
      intro w hl hS hD hE hF hG
      rw [List.foldl_cons]
      obtain ⟨hS2, hD2, hE2, hF2, hG2⟩ := stepOp_inv w op
        (hl op (List.mem_cons_self _ _)) hS hD hE hF hG
      exact ih _ (fun o ho => hl o (List.mem_cons_of_mem _ ho))
        hS2 hD2 hE2 hF2 hG2
  obtain ⟨hS, hD, _, hF, hG⟩ := main ops {} hops
    ⟨fun p hp => absurd hp (List.not_mem_nil p), List.nodup_nil,
      fun a ha => absurd ha (List.not_mem_nil a), List.nodup_nil,
      fun a ha => absurd ha (List.not_mem_nil a)⟩
    List.nodup_nil
    (fun p hp => absurd hp (List.not_mem_nil p))
    (fun τ s i hs => absurd hs (by intro hc; exact Option.noConfusion hc))
    (fun i e he => absurd he (by intro hc; exact Option.noConfusion hc))
  constructor
  · intro p hp i hi
    exact hF p.1 p.2 i (alookup_of_mem_nodup hD hp) hi
  · intro q hq τ hτ
    exact hG q.1 q.2 (alookup_of_mem_nodup hS.2.1 hq) τ hτ

/-- Witness for `c2_tag_index_consistency`: a run exercising additions,
flushes, self-destruction, external destruction and removal. -/
theorem c2_tag_index_consistency_witness :
    (∀ op ∈ [Op.opAdd ["enemy"] true false, Op.opUpdate 1,
        Op.opAdd ["enemy", "fish"] true true, Op.opUpdate 1,
        Op.opDestroy 0, Op.opRemove 0, Op.opUpdate 1],
      op.isTagMutation = false) ∧
    TagInvariant (applyOps [Op.opAdd ["enemy"] true false, Op.opUpdate 1,
        Op.opAdd ["enemy", "fish"] true true, Op.opUpdate 1,
        Op.opDestroy 0, Op.opRemove 0, Op.opUpdate 1]).mgr :=
  ⟨by decide,
   c2_tag_index_consistency
     [Op.opAdd ["enemy"] true false, Op.opUpdate 1,
      Op.opAdd ["enemy", "fish"] true true, Op.opUpdate 1,
      Op.opDestroy 0, Op.opRemove 0, Op.opUpdate 1] (by decide)⟩

/-! ### C4: narrow-phase collision test -/

theorem testGrid_init : SpatialGrid.init 800 600 100 = .ok testGrid := rfl

theorem check_collision_testBox (g : SpatialGrid) (i1 i2 : ℕ)
    (x1 y1 w1 h1 x2 y2 w2 h2 : ℚ) :
    g.check_collision (testBoxEntity i1 x1 y1 w1 h1)
        (testBoxEntity i2 x2 y2 w2 h2) =
      colliderect (pyRect (x1 - w1 / 2) (y1 - h1 / 2) w1 h1)
                  (pyRect (x2 - w2 / 2) (y2 - h2 / 2) w2 h2) := rfl

theorem pyInt_intCast (n : ℤ) : pyInt (n : ℚ) = n := by
  unfold pyInt
  split <;> simp

/-- C4 (amended): on integer center positions with positive even extents
— so that `pygame.Rect`'s truncation to integers is exact —
`check_collision` is `true` exactly when the open rectangles
`position ± extent/2` overlap on both axes; edge contact is not a
collision. -/
theorem c4_narrow_phase_exact (g : SpatialGrid) (i1 i2 : ℕ)
    (x1 y1 x2 y2 u1 v1 u2 v2 : ℤ)
    (hu1 : 0 < u1) (hv1 : 0 < v1) (hu2 : 0 < u2) (hv2 : 0 < v2) :
    (g.check_collision
        (testBoxEntity i1 (x1 : ℚ) (y1 : ℚ) ((2 * u1 : ℤ) : ℚ) ((2 * v1 : ℤ) : ℚ))
        (testBoxEntity i2 (x2 : ℚ) (y2 : ℚ) ((2 * u2 : ℤ) : ℚ) ((2 * v2 : ℤ) : ℚ))
      = true) ↔
    openBoxesOverlap (x1 : ℚ) (y1 : ℚ) ((2 * u1 : ℤ) : ℚ) ((2 * v1 : ℤ) : ℚ)
      (x2 : ℚ) (y2 : ℚ) ((2 * u2 : ℤ) : ℚ) ((2 * v2 : ℤ) : ℚ) := by
  rw [check_collision_testBox]
  have hx1 : (x1 : ℚ) - ((2 * u1 : ℤ) : ℚ) / 2 = ((x1 - u1 : ℤ) : ℚ) := by
    push_cast; ring
  have hy1 : (y1 : ℚ) - ((2 * v1 : ℤ) : ℚ) / 2 = ((y1 - v1 : ℤ) : ℚ) := by
    push_cast; ring
  have hx2 : (x2 : ℚ) - ((2 * u2 : ℤ) : ℚ) / 2 = ((x2 - u2 : ℤ) : ℚ) := by
    push_cast; ring
  have hy2 : (y2 : ℚ) - ((2 * v2 : ℤ) : ℚ) / 2 = ((y2 - v2 : ℤ) : ℚ) := by
    push_cast; ring
  have hr1 : pyRect ((x1 : ℚ) - ((2 * u1 : ℤ) : ℚ) / 2)
      ((y1 : ℚ) - ((2 * v1 : ℤ) : ℚ) / 2) ((2 * u1 : ℤ) : ℚ) ((2 * v1 : ℤ) : ℚ)
      = ⟨x1 - u1, y1 - v1, 2 * u1, 2 * v1⟩ := by
    simp only [pyRect, hx1, hy1, pyInt_intCast]
  have hr2 : pyRect ((x2 : ℚ) - ((2 * u2 : ℤ) : ℚ) / 2)
      ((y2 : ℚ) - ((2 * v2 : ℤ) : ℚ) / 2) ((2 * u2 : ℤ) : ℚ) ((2 * v2 : ℤ) : ℚ)
      = ⟨x2 - u2, y2 - v2, 2 * u2, 2 * v2⟩ := by
    simp only [pyRect, hx2, hy2, pyInt_intCast]
  rw [hr1, hr2]
  have e1 : ((x1 : ℚ) - ((2 * u1 : ℤ) : ℚ) / 2 < (x2 : ℚ) + ((2 * u2 : ℤ) : ℚ) / 2)
      ↔ (x1 - u1 < x2 + u2) := by
    rw [hx1, show (x2 : ℚ) + ((2 * u2 : ℤ) : ℚ) / 2 = ((x2 + u2 : ℤ) : ℚ) by
      push_cast; ring]
    exact Int.cast_lt
  have e2 : ((x2 : ℚ) - ((2 * u2 : ℤ) : ℚ) / 2 < (x1 : ℚ) + ((2 * u1 : ℤ) : ℚ) / 2)
      ↔ (x2 - u2 < x1 + u1) := by
    rw [hx2, show (x1 : ℚ) + ((2 * u1 : ℤ) : ℚ) / 2 = ((x1 + u1 : ℤ) : ℚ) by
      push_cast; ring]
    exact Int.cast_lt
  have e3 : ((y1 : ℚ) - ((2 * v1 : ℤ) : ℚ) / 2 < (y2 : ℚ) + ((2 * v2 : ℤ) : ℚ) / 2)
      ↔ (y1 - v1 < y2 + v2) := by
    rw [hy1, show (y2 : ℚ) + ((2 * v2 : ℤ) : ℚ) / 2 = ((y2 + v2 : ℤ) : ℚ) by
      push_cast; ring]
    exact Int.cast_lt
  have e4 : ((y2 : ℚ) - ((2 * v2 : ℤ) : ℚ) / 2 < (y1 : ℚ) + ((2 * v1 : ℤ) : ℚ) / 2)
      ↔ (y2 - v2 < y1 + v1) := by
    rw [hy2, show (y1 : ℚ) + ((2 * v1 : ℤ) : ℚ) / 2 = ((y1 + v1 : ℤ) : ℚ) by
      push_cast; ring]
    exact Int.cast_lt
  rw [openBoxesOverlap, e1, e2, e3, e4]
  simp only [colliderect]
  have hne1 : ¬ ((2 * u1 = 0 || 2 * v1 = 0 || 2 * u2 = 0 || 2 * v2 = 0) = true) := by
    simp only [Bool.or_eq_true, decide_eq_true_eq]
    omega
  rw [if_neg hne1]
  simp only [Bool.and_eq_true, decide_eq_true_eq]
  rw [min_eq_left (by omega : x1 - u1 ≤ x1 - u1 + 2 * u1),
      max_eq_right (by omega : x2 - u2 ≤ x2 - u2 + 2 * u2),
      min_eq_left (by omega : y1 - v1 ≤ y1 - v1 + 2 * v1),
      max_eq_right (by omega : y2 - v2 ≤ y2 - v2 + 2 * v2),
      max_eq_right (by omega : x1 - u1 ≤ x1 - u1 + 2 * u1),
      min_eq_left (by omega : x2 - u2 ≤ x2 - u2 + 2 * u2),
      max_eq_right (by omega : y1 - v1 ≤ y1 - v1 + 2 * v1),
      min_eq_left (by omega : y2 - v2 ≤ y2 - v2 + 2 * v2)]
  constructor
  · rintro ⟨⟨⟨a, b⟩, c⟩, d⟩
    exact ⟨by omega, by omega, by omega, by omega⟩
  · rintro ⟨a, b, c, d⟩
    exact ⟨⟨⟨by omega, by omega⟩, by omega⟩, by omega⟩

/-- C4 counterexample: two 10×10 boxes centered at x = 0.6 and x = 10.7
(same y) do **not** overlap as real rectangles (5.6 < 5.7), yet
`check_collision` reports `true`: `pygame.Rect` truncates the fractional
corners (0.6 − 5 ↦ −4, 10.7 − 5 ↦ 5), so the claimed exact equivalence
fails on non-integer positions. -/
theorem c4_counterexample :
    testGrid.check_collision (testBoxEntity 1 (3/5) 0 10 10)
        (testBoxEntity 2 (107/10) 0 10 10) = true ∧
    ¬ openBoxesOverlap (3/5) 0 10 10 (107/10) 0 10 10 := by
  constructor
  · rw [check_collision_testBox]
    have h1 : pyRect (3/5 - 10/2) ((0 : ℚ) - 10/2) 10 10 = ⟨-4, -5, 10, 10⟩ := by
      simp only [pyRect, pyInt]
      norm_num [Int.ceil_eq_iff]
    have h2 : pyRect (107/10 - 10/2) ((0 : ℚ) - 10/2) 10 10 = ⟨5, -5, 10, 10⟩ := by
      simp only [pyRect, pyInt]
      norm_num [Int.ceil_eq_iff]
    rw [h1, h2]
    decide
  · rintro ⟨-, h, -, -⟩
    norm_num at h

/-- Witness for `c4_narrow_phase_exact`: two 10×10 boxes with centers at
(0,0) and (10,0) touch edges and do not collide; moving the second center
to (9,0) makes them collide. -/
theorem c4_narrow_phase_exact_witness :
    (0 : ℤ) < 5 ∧
    testGrid.check_collision (testBoxEntity 1 0 0 10 10)
      (testBoxEntity 2 10 0 10 10) = false ∧
    testGrid.check_collision (testBoxEntity 1 0 0 10 10)
      (testBoxEntity 2 9 0 10 10) = true := by
  have h1 := c4_narrow_phase_exact testGrid 1 2 0 0 10 0 5 5 5 5
    (by decide) (by decide) (by decide) (by decide)
  have h2 := c4_narrow_phase_exact testGrid 1 2 0 0 9 0 5 5 5 5
    (by decide) (by decide) (by decide) (by decide)
  norm_num [openBoxesOverlap] at h1 h2
  exact ⟨by decide, h1, h2⟩

/-! ### C5: broad-phase spatial grid -/

theorem intRange_mem (lo hi c : ℤ) : c ∈ intRange lo hi ↔ lo ≤ c ∧ c ≤ hi := by
  simp only [intRange]
  constructor
  · intro hmem
    obtain ⟨i, hir, heq⟩ := List.mem_map.mp hmem
    rw [List.mem_range] at hir
    omega
  · intro hcc
    refine List.mem_map.mpr ⟨(c - lo).toNat, ?_, ?_⟩
    · rw [List.mem_range]; omega
    · omega

theorem intRange_nil (lo hi : ℤ) (h : hi < lo) : intRange lo hi = [] := by
  simp only [intRange]
  rw [show (hi + 1 - lo).toNat = 0 by omega]
  rfl

theorem cellsFor_mem (g : SpatialGrid) (x y w h : ℚ) (col row : ℤ) :
    (col, row) ∈ g.cellsFor x y w h ↔
      (max 0 (pyInt ((x - w / 2) / (g.cell_size : ℚ))) ≤ col ∧
       col ≤ min (g.cols - 1) (pyInt ((x + w / 2) / (g.cell_size : ℚ)))) ∧
      (max 0 (pyInt ((y - h / 2) / (g.cell_size : ℚ))) ≤ row ∧
       row ≤ min (g.rows - 1) (pyInt ((y + h / 2) / (g.cell_size : ℚ)))) := by
  simp only [SpatialGrid.cellsFor, List.mem_flatMap, List.mem_map, intRange_mem]
  constructor
  · rintro ⟨c, hc, r, hr, heq⟩
    injection heq with h1 h2
    subst h1; subst h2
    exact ⟨hc, hr⟩
  · rintro ⟨hc, hr⟩
    exact ⟨col, hc, row, hr, rfl⟩

theorem cellsFor_eq_nil (g : SpatialGrid) (x y w h : ℚ)
    (hc : min (g.cols - 1) (pyInt ((x + w / 2) / (g.cell_size : ℚ))) <
          max 0 (pyInt ((x - w / 2) / (g.cell_size : ℚ)))) :
    g.cellsFor x y w h = [] := by
  simp only [SpatialGrid.cellsFor]
  rw [intRange_nil _ _ hc]
  rfl

theorem cellsFor_congr (S T : SpatialGrid) (h1 : S.cell_size = T.cell_size)
    (h2 : S.cols = T.cols) (h3 : S.rows = T.rows) (x y w h : ℚ) :
    S.cellsFor x y w h = T.cellsFor x y w h := by
  simp only [SpatialGrid.cellsFor, h1, h2, h3]

theorem insertEntity_of_inactive (S : SpatialGrid) (e : Entity)
    (h : e.active = false) : S.insertEntity e = S := by
  simp [SpatialGrid.insertEntity, h]

theorem insertEntity_of_box_none (S : SpatialGrid) (e : Entity)
    (hbox : boxOf e = none) : S.insertEntity e = S := by
  simp only [SpatialGrid.insertEntity]
  split
  · rfl
  rcases ht : e.get_component "transform" with _ | t <;>
    rcases hc : e.get_component "collision" with _ | c <;>
      simp only [boxOf, ht, hc] at hbox ⊢
  rcases hdt : t.data with ⟨x, y⟩ | ⟨w2, h2⟩ | ⟨vx, vy⟩ | col | b | _ <;>
    rcases hdc : c.data with ⟨x2, y2⟩ | ⟨w3, h3⟩ | ⟨vx2, vy2⟩ | col2 | b2 | _ <;>
      simp only [hdt, hdc] at hbox ⊢
  exact Option.noConfusion hbox

theorem insertEntity_eq (S : SpatialGrid) (e : Entity) (x y w h : ℚ)
    (hact : e.active = true) (hbox : boxOf e = some (x, y, w, h)) :
    S.insertEntity e =
      { S with
        entity_cells := ainsert S.entity_cells e.entity_id (S.cellsFor x y w h),
        grid := (S.cellsFor x y w h).foldl (gridAdd e) S.grid } := by
  rcases ht : e.get_component "transform" with _ | t <;>
    rcases hc : e.get_component "collision" with _ | c <;>
      simp only [boxOf, ht, hc] at hbox <;>
        try exact Option.noConfusion hbox
  rcases hdt : t.data with ⟨x1, y1⟩ | ⟨w2, h2⟩ | ⟨vx, vy⟩ | col | b | _ <;>
    rcases hdc : c.data with ⟨x2, y2⟩ | ⟨w3, h3⟩ | ⟨vx2, vy2⟩ | col2 | b2 | _ <;>
      simp only [hdt, hdc] at hbox <;>
        try exact Option.noConfusion hbox
  obtain ⟨rfl, rfl, rfl, rfl⟩ : x1 = x ∧ y1 = y ∧ w3 = w ∧ h3 = h := by
    have := Option.some.inj hbox
    injection this with e1 rest
    injection rest with e2 rest2
    injection rest2 with e3 e4
    exact ⟨e1, e2, e3, e4⟩
  simp only [SpatialGrid.insertEntity, hact, Bool.not_true, ht, hc, hdt, hdc]
  rfl

theorem insertEntity_fields (S : SpatialGrid) (e : Entity) :
    (S.insertEntity e).cell_size = S.cell_size ∧
    (S.insertEntity e).cols = S.cols ∧ (S.insertEntity e).rows = S.rows := by
  unfold SpatialGrid.insertEntity
  repeat' split
  all_goals exact ⟨rfl, rfl, rfl⟩

theorem updateFold_fields (es : List Entity) : ∀ (S : SpatialGrid),
    ((es.foldl SpatialGrid.insertEntity S).cell_size = S.cell_size ∧
     (es.foldl SpatialGrid.insertEntity S).cols = S.cols ∧
     (es.foldl SpatialGrid.insertEntity S).rows = S.rows) := by
  induction es with
  | nil => intro S; exact ⟨rfl, rfl, rfl⟩
  | cons e rest ih =>
    intro S
    rw [List.foldl_cons]
    obtain ⟨h1, h2, h3⟩ := ih (S.insertEntity e)
    obtain ⟨g1, g2, g3⟩ := insertEntity_fields S e
    exact ⟨h1.trans g1, h2.trans g2, h3.trans g3⟩

theorem gridAdd_persist (e : Entity) (cells : List (ℤ × ℤ)) :
    ∀ (gr : List ((ℤ × ℤ) × List Entity)) (ck : ℤ × ℤ) (l0 : List Entity),
    alookup gr ck = some l0 → ∀ e2 ∈ l0,
    ∃ l, alookup (cells.foldl (gridAdd e) gr) ck = some l ∧ e2 ∈ l := by
  induction cells with
  | nil => intro gr ck l0 hl e2 he; exact ⟨l0, hl, he⟩
  | cons c cs ih =>
    intro gr ck l0 hl e2 he
    rw [List.foldl_cons]
    by_cases hck : c = ck
    · subst hck
      refine ih (gridAdd e gr c) c (l0 ++ [e]) ?_ e2 (List.mem_append_left _ he)
      simp only [gridAdd, hl, alookup_ainsert, eq_self_iff_true, if_true]
    · refine ih (gridAdd e gr c) ck l0 ?_ e2 he
      simp only [gridAdd]
      rcases h0 : alookup gr c with _ | lc <;>
        simp only [alookup_ainsert, if_neg hck, hl]

theorem gridAdd_self_mem (e : Entity) (cells : List (ℤ × ℤ)) :
    ∀ (gr : List ((ℤ × ℤ) × List Entity)) (ck : ℤ × ℤ), ck ∈ cells →
    ∃ l, alookup (cells.foldl (gridAdd e) gr) ck = some l ∧ e ∈ l := by
  induction cells with
  | nil => intro gr ck hck; exact absurd hck (List.not_mem_nil ck)
  | cons c cs ih =>
    intro gr ck hck
    rw [List.foldl_cons]
    by_cases hc : ck ∈ cs
    · exact ih (gridAdd e gr c) ck hc
    · have hceq : c = ck := by
        rcases List.mem_cons.mp hck with h | h
        · exact h.symm
        · exact absurd h hc
      subst hceq
      refine gridAdd_persist e cs (gridAdd e gr c) c ?_ ?_ e ?_
      · exact (match h0 : alookup gr c with
          | none => [e]
          | some lc => lc ++ [e])
      all_goals rcases h0 : alookup gr c with _ | lc
      · simp only [gridAdd, h0, alookup_ainsert, eq_self_iff_true, if_true]
      · simp only [gridAdd, h0, alookup_ainsert, eq_self_iff_true, if_true]
      · exact List.mem_singleton_self e
      · exact List.mem_append_right _ (List.mem_singleton_self e)

theorem gridAdd_lookup_mem (e : Entity) (cells : List (ℤ × ℤ)) :
    ∀ (gr : List ((ℤ × ℤ) × List Entity)) (ck : ℤ × ℤ) (l : List Entity),
    alookup (cells.foldl (gridAdd e) gr) ck = some l → ∀ e2 ∈ l,
    (∃ l0, alookup gr ck = some l0 ∧ e2 ∈ l0) ∨ (e2 = e ∧ ck ∈ cells) := by
  induction cells with
  | nil =>
    intro gr ck l hl e2 he
    exact .inl ⟨l, hl, he⟩
  | cons c cs ih =>
    intro gr ck l hl e2 he
    rw [List.foldl_cons] at hl
    rcases ih (gridAdd e gr c) ck l hl e2 he with ⟨l0, hl0, hm⟩ | ⟨heq, hcm⟩
    · by_cases hck : c = ck
      · subst hck
        rcases h0 : alookup gr c with _ | lc
        · simp only [gridAdd, h0, alookup_ainsert, eq_self_iff_true, if_true] at hl0
          obtain rfl : [e] = l0 := Option.some.inj hl0
          rcases List.mem_singleton.mp hm with rfl
          exact .inr ⟨rfl, List.mem_cons_self _ _⟩
        · simp only [gridAdd, h0, alookup_ainsert, eq_self_iff_true, if_true] at hl0
          obtain rfl : lc ++ [e] = l0 := Option.some.inj hl0
          rcases List.mem_append.mp hm with hm2 | hm2
          · exact .inl ⟨lc, rfl, hm2⟩
          · rcases List.mem_singleton.mp hm2 with rfl
            exact .inr ⟨rfl, List.mem_cons_self _ _⟩
      · left
        refine ⟨l0, ?_, hm⟩
        rw [← hl0]
        simp only [gridAdd]
        rcases h0 : alookup gr c with _ | lc <;>
          simp only [alookup_ainsert, if_neg hck]
    · exact .inr ⟨heq, List.mem_cons_of_mem _ hcm⟩

theorem mem_cellScan_fold (gr : List ((ℤ × ℤ) × List Entity)) (p : Entity → Bool)
    (cells : List (ℤ × ℤ)) :
    ∀ (acc : List Entity) (o : Entity),
    (o ∈ cells.foldl (cellScan gr p) acc ↔
     o ∈ acc ∨ ∃ ck ∈ cells, ∃ l, alookup gr ck = some l ∧ o ∈ l.filter p) := by
  induction cells with
  | nil =>
    intro acc o
    simp
  | cons c cs ih =>
    intro acc o
    rw [List.foldl_cons, ih]
    constructor
    · rintro (h | ⟨ck, hck, l, hl, ho⟩)
      · rcases h0 : alookup gr c with _ | lc
        · simp only [cellScan, h0] at h
          exact .inl h
        · simp only [cellScan, h0] at h
          rcases List.mem_append.mp h with h2 | h2
          · exact .inl h2
          · exact .inr ⟨c, List.mem_cons_self _ _, lc, h0, h2⟩
      · exact .inr ⟨ck, List.mem_cons_of_mem _ hck, l, hl, ho⟩
    · rintro (h | ⟨ck, hck, l, hl, ho⟩)
      · left
        rcases h0 : alookup gr c with _ | lc <;> simp only [cellScan, h0]
        · exact h
        · exact List.mem_append_left _ h
      · rcases List.mem_cons.mp hck with rfl | hck2
        · left
          simp only [cellScan, hl]
          exact List.mem_append_right _ ho
        · exact .inr ⟨ck, hck2, l, hl, ho⟩

theorem mem_potential (g : SpatialGrid) (A o : Entity) (cells : List (ℤ × ℤ))
    (hc : alookup g.entity_cells A.entity_id = some cells) :
    (o ∈ g.get_potential_collisions A ↔
     o.entity_id ≠ A.entity_id ∧ o.active = true ∧
     ∃ ck ∈ cells, ∃ l, alookup g.grid ck = some l ∧ o ∈ l) := by
  have heq : g.get_potential_collisions A =
      (cells.foldl (cellScan g.grid
        (fun o2 => o2.entity_id ≠ A.entity_id && o2.active)) []).dedup := by
    simp only [SpatialGrid.get_potential_collisions, hc]
    rfl
  rw [heq, List.mem_dedup, mem_cellScan_fold]
  simp only [List.not_mem_nil, false_or, List.mem_filter,
    Bool.and_eq_true, decide_eq_true_eq]
  constructor
  · rintro ⟨ck, hck, l, hl, hol, hne, hact⟩
    exact ⟨hne, hact, ck, hck, l, hl, hol⟩
  · rintro ⟨hne, hact, ck, hck, l, hl, hol⟩
    exact ⟨ck, hck, l, hl, hol, hne, hact⟩

theorem box_some_inj {a b c d a2 b2 c2 d2 : ℚ}
    (h : (some (a, b, c, d) : Option (ℚ × ℚ × ℚ × ℚ)) = some (a2, b2, c2, d2)) :
    a = a2 ∧ b = b2 ∧ c = c2 ∧ d = d2 := by
  simp only [Option.some.injEq, Prod.mk.injEq] at h
  exact ⟨h.1, h.2.1, h.2.2.1, h.2.2.2⟩

theorem updateFold_char (es : List Entity) :
    ∀ (S : SpatialGrid),
    (es.map Entity.entity_id).Nodup →
    (∀ e ∈ es, alookup S.entity_cells e.entity_id = none) →
    CellsOK S →
    (CellsOK (es.foldl SpatialGrid.insertEntity S) ∧
     (∀ i, (∀ e ∈ es, e.entity_id ≠ i) →
        alookup (es.foldl SpatialGrid.insertEntity S).entity_cells i =
          alookup S.entity_cells i) ∧
     (∀ ck l0 e2, alookup S.grid ck = some l0 → e2 ∈ l0 →
        ∃ l, alookup (es.foldl SpatialGrid.insertEntity S).grid ck = some l ∧
          e2 ∈ l) ∧
     (∀ e ∈ es, e.active = true → ∀ x y w h, boxOf e = some (x, y, w, h) →
        alookup (es.foldl SpatialGrid.insertEntity S).entity_cells e.entity_id =
          some (S.cellsFor x y w h) ∧
        ∀ ck ∈ S.cellsFor x y w h,
          ∃ l, alookup (es.foldl SpatialGrid.insertEntity S).grid ck = some l ∧
            e ∈ l)) := by
  induction es with
  | nil =>
    intro S _ _ hok
    refine ⟨hok, fun i _ => rfl, fun ck l0 e2 h he => ⟨l0, h, he⟩, ?_⟩
    intro e he
    exact absurd he (List.not_mem_nil e)
  | cons e rest ih =>
    intro S hnd hfresh hok
    rw [List.map_cons, List.nodup_cons] at hnd
    obtain ⟨hnin, hnd2⟩ := hnd
    have hfresh_e : alookup S.entity_cells e.entity_id = none :=
      hfresh e (List.mem_cons_self _ _)
    have hfresh_rest : ∀ f ∈ rest, alookup S.entity_cells f.entity_id = none :=
      fun f hf => hfresh f (List.mem_cons_of_mem _ hf)
    have hid_ne : ∀ f ∈ rest, f.entity_id ≠ e.entity_id := by
      intro f hf hcontra
      exact hnin (hcontra ▸ List.mem_map_of_mem Entity.entity_id hf)
    rw [List.foldl_cons]
    by_cases hact : e.active = true
    · rcases hbox : boxOf e with _ | bx
      · -- active but no box: the insertion is a no-op
        have hskip : S.insertEntity e = S := insertEntity_of_box_none S e hbox
        rw [hskip]
        obtain ⟨C1, C2, C3, C4⟩ := ih S hnd2 hfresh_rest hok
        refine ⟨C1, ?_, C3, ?_⟩
        · intro i hi
          exact C2 i fun f hf => hi f (List.mem_cons_of_mem _ hf)
        · intro f hf hfact x y w h hfbox
          rcases List.mem_cons.mp hf with rfl | hf2
          · rw [hbox] at hfbox
            exact Option.noConfusion hfbox
          · exact C4 f hf2 hfact x y w h hfbox
      · obtain ⟨x, y, w, h⟩ := bx
        have hins := insertEntity_eq S e x y w h hact hbox
        have hfields := insertEntity_fields S e
        have hcf : ∀ x2 y2 w2 h2 : ℚ,
            (S.insertEntity e).cellsFor x2 y2 w2 h2 = S.cellsFor x2 y2 w2 h2 :=
          fun x2 y2 w2 h2 =>
            cellsFor_congr _ _ hfields.1 hfields.2.1 hfields.2.2 x2 y2 w2 h2
        have hec2 : ∀ i, alookup (S.insertEntity e).entity_cells i =
            if e.entity_id = i then some (S.cellsFor x y w h)
            else alookup S.entity_cells i := by
          intro i
          rw [hins]
          exact alookup_ainsert _ _ _ i
        have hgr2 : (S.insertEntity e).grid =
            (S.cellsFor x y w h).foldl (gridAdd e) S.grid := by
          rw [hins]
        have hfresh2 : ∀ f ∈ rest,
            alookup (S.insertEntity e).entity_cells f.entity_id = none := by
          intro f hf
          rw [hec2 f.entity_id,
              if_neg (fun hcontra => (hid_ne f hf) hcontra.symm)]
          exact hfresh_rest f hf
        have hok2 : CellsOK (S.insertEntity e) := by
          intro ck l hl e2 he2
          rw [hgr2] at hl
          rcases gridAdd_lookup_mem e (S.cellsFor x y w h) S.grid ck l hl e2 he2
            with ⟨l0, h0, hm⟩ | ⟨rfl, hckm⟩
          · obtain ⟨cl2, hcl2, hckin⟩ := hok ck l0 h0 e2 hm
            have hne : e.entity_id ≠ e2.entity_id := by
              intro hcontra
              rw [hcontra, hcl2] at hfresh_e
              exact Option.noConfusion hfresh_e
            refine ⟨cl2, ?_, hckin⟩
            rw [hec2 e2.entity_id, if_neg hne]
            exact hcl2
          · refine ⟨S.cellsFor x y w h, ?_, hckm⟩
            rw [hec2 e2.entity_id, if_pos rfl]
        obtain ⟨C1, C2, C3, C4⟩ := ih (S.insertEntity e) hnd2 hfresh2 hok2
        refine ⟨C1, ?_, ?_, ?_⟩
        · intro i hi
          rw [C2 i (fun f hf => hi f (List.mem_cons_of_mem _ hf)), hec2 i,
              if_neg (hi e (List.mem_cons_self _ _))]
        · intro ck l0 e2 h0 hm
          have step : ∃ l1, alookup (S.insertEntity e).grid ck = some l1 ∧
              e2 ∈ l1 := by
            rw [hgr2]
            exact gridAdd_persist e (S.cellsFor x y w h) S.grid ck l0 h0 e2 hm
          obtain ⟨l1, hl1, hm1⟩ := step
          exact C3 ck l1 e2 hl1 hm1
        · intro f hf hfact x2 y2 w2 h2 hfbox
          rcases List.mem_cons.mp hf with rfl | hf2
          · obtain ⟨rfl, rfl, rfl, rfl⟩ := box_some_inj (hbox.symm.trans hfbox)
            constructor
            · rw [C2 f.entity_id (hid_ne), hec2 f.entity_id, if_pos rfl]
            · intro ck hck
              have step : ∃ l1, alookup (S.insertEntity f).grid ck = some l1 ∧
                  f ∈ l1 := by
                rw [hgr2]
                exact gridAdd_self_mem f (S.cellsFor x y w h) S.grid ck hck
              obtain ⟨l1, hl1, hm1⟩ := step
              exact C3 ck l1 f hl1 hm1
          · have h4 := C4 f hf2 hfact x2 y2 w2 h2 hfbox
            rw [hcf x2 y2 w2 h2] at h4
            exact h4
    · -- inactive: the insertion is a no-op
      have hskip : S.insertEntity e = S :=
        insertEntity_of_inactive S e (by revert hact; cases e.active <;> simp)
      rw [hskip]
      obtain ⟨C1, C2, C3, C4⟩ := ih S hnd2 hfresh_rest hok
      refine ⟨C1, ?_, C3, ?_⟩
      · intro i hi
        exact C2 i fun f hf => hi f (List.mem_cons_of_mem _ hf)
      · intro f hf hfact x y w h hfbox
        rcases List.mem_cons.mp hf with rfl | hf2
        · exact absurd hfact hact
        · exact C4 f hf2 hfact x y w h hfbox

theorem pyInt_eq_floor (q : ℚ) (h : 0 ≤ q) : pyInt q = ⌊q⌋ := by
  unfold pyInt
  rw [if_pos h]

theorem floor_intCast_div (a b : ℤ) (hb : 0 < b) :
    ⌊(a : ℚ) / (b : ℚ)⌋ = a.fdiv b := by
  rw [Int.fdiv_eq_ediv a hb.le, Int.floor_eq_iff]
  have hq : (0 : ℚ) < (b : ℚ) := by exact_mod_cast hb
  have e1 := Int.ediv_add_emod a b
  have e2 := Int.emod_nonneg a (show b ≠ 0 by omega)
  have e3 := Int.emod_lt_of_pos a hb
  have key1 : a / b * b ≤ a := by rw [Int.mul_comm]; omega
  have key2 : a < (a / b + 1) * b := by
    rw [Int.add_mul, Int.one_mul, Int.mul_comm]
    omega
  constructor
  · rw [le_div_iff hq]
    have hcast : ((a / b : ℤ) : ℚ) * (b : ℚ) = ((a / b * b : ℤ) : ℚ) := by
      push_cast; ring
    rw [hcast]
    exact_mod_cast key1
  · rw [div_lt_iff hq]
    have hcast : (((a / b : ℤ) : ℚ) + 1) * (b : ℚ) = (((a / b + 1) * b : ℤ) : ℚ) := by
      push_cast; ring
    rw [hcast]
    exact_mod_cast key2

theorem col_in_range (cs : ℤ) (hcs : 0 < cs) (bound : ℤ) (l r q : ℚ)
    (hl : 0 ≤ l) (hlq : l ≤ q) (hqr : q ≤ r) (hr : r ≤ (bound : ℚ)) :
    max 0 (pyInt (l / (cs : ℚ))) ≤ ⌊q / (cs : ℚ)⌋ ∧
    ⌊q / (cs : ℚ)⌋ ≤ min (bound.fdiv cs + 1 - 1) (pyInt (r / (cs : ℚ))) := by
  have hcsq : (0 : ℚ) < (cs : ℚ) := by exact_mod_cast hcs
  have h0l : 0 ≤ l / (cs : ℚ) := div_nonneg hl hcsq.le
  have h0r : 0 ≤ r / (cs : ℚ) := div_nonneg (hl.trans (hlq.trans hqr)) hcsq.le
  rw [pyInt_eq_floor _ h0l, pyInt_eq_floor _ h0r]
  refine ⟨?_, ?_⟩
  · rw [max_eq_right (Int.floor_nonneg.mpr h0l)]
    exact Int.floor_le_floor ((div_le_div_right hcsq).mpr hlq)
  · refine le_min ?_ (Int.floor_le_floor ((div_le_div_right hcsq).mpr hqr))
    have hw : ⌊q / (cs : ℚ)⌋ ≤ ⌊(bound : ℚ) / (cs : ℚ)⌋ :=
      Int.floor_le_floor ((div_le_div_right hcsq).mpr (hqr.trans hr))
    rw [floor_intCast_div bound cs hcs] at hw
    omega

theorem common_cell (width height cell_size : ℤ) (g : SpatialGrid)
    (hg : SpatialGrid.init width height cell_size = .ok g)
    (hcs : 0 < cell_size)
    (xa ya wa ha xb yb wb hb : ℚ)
    (hwa : 0 ≤ wa) (hha : 0 ≤ ha) (hwb : 0 ≤ wb) (hhb : 0 ≤ hb)
    (hba : boxInBounds g xa ya wa ha) (hbb : boxInBounds g xb yb wb hb)
    (hov : closedBoxesOverlap xa ya wa ha xb yb wb hb) :
    ∃ ck, ck ∈ g.cellsFor xa ya wa ha ∧ ck ∈ g.cellsFor xb yb wb hb := by
  have hne0 : ¬ cell_size = 0 := by omega
  simp only [SpatialGrid.init, if_neg hne0] at hg
  obtain rfl := Except.ok.inj hg
  obtain ⟨hA1, hA2, hA3, hA4⟩ := hba
  obtain ⟨hB1, hB2, hB3, hB4⟩ := hbb
  obtain ⟨hov1, hov2, hov3, hov4⟩ := hov
  refine ⟨(⌊(max (xa - wa / 2) (xb - wb / 2)) / (cell_size : ℚ)⌋,
           ⌊(max (ya - ha / 2) (yb - hb / 2)) / (cell_size : ℚ)⌋), ?_, ?_⟩
  · rw [cellsFor_mem]
    have hxq : max (xa - wa / 2) (xb - wb / 2) ≤ xa + wa / 2 :=
      max_le (by linarith) (by linarith)
    have hyq : max (ya - ha / 2) (yb - hb / 2) ≤ ya + ha / 2 :=
      max_le (by linarith) (by linarith)
    have hx := col_in_range cell_size hcs width (xa - wa / 2) (xa + wa / 2)
      (max (xa - wa / 2) (xb - wb / 2)) hA1 (le_max_left _ _) hxq hA2
    have hy := col_in_range cell_size hcs height (ya - ha / 2) (ya + ha / 2)
      (max (ya - ha / 2) (yb - hb / 2)) hA3 (le_max_left _ _) hyq hA4
    exact ⟨⟨hx.1, hx.2⟩, hy.1, hy.2⟩
  · rw [cellsFor_mem]
    have hxq : max (xa - wa / 2) (xb - wb / 2) ≤ xb + wb / 2 :=
      max_le (by linarith) (by linarith)
    have hyq : max (ya - ha / 2) (yb - hb / 2) ≤ yb + hb / 2 :=
      max_le (by linarith) (by linarith)
    have hx := col_in_range cell_size hcs width (xb - wb / 2) (xb + wb / 2)
      (max (xa - wa / 2) (xb - wb / 2)) hB1 (le_max_right _ _) hxq hB2
    have hy := col_in_range cell_size hcs height (yb - hb / 2) (yb + hb / 2)
      (max (ya - ha / 2) (yb - hb / 2)) hB3 (le_max_right _ _) hyq hB4
    exact ⟨⟨hx.1, hx.2⟩, hy.1, hy.2⟩

/-- C5 (amended): after a `SpatialGrid.update` rebuild over entities with
pairwise-distinct ids, (soundness) two active collidable entities assigned
no grid cell in common never see each other in `get_potential_collisions`;
and (completeness, **only for bounding boxes lying inside the world
rectangle**) two such entities whose boxes overlap each appear in the
other's candidate list.  Out-of-bounds boxes can overlap while receiving
no cells at all, so the unrestricted completeness claim fails. -/
theorem c5_broad_phase (width height cell_size : ℤ) (g : SpatialGrid)
    (hg : SpatialGrid.init width height cell_size = .ok g)
    (hcs : 0 < cell_size)
    (es : List Entity) (hnd : (es.map Entity.entity_id).Nodup)
    (A B : Entity) (hA : A ∈ es) (hB : B ∈ es)
    (hAact : A.active = true) (hBact : B.active = true)
    (hne : B.entity_id ≠ A.entity_id)
    (xa ya wa ha xb yb wb hb : ℚ)
    (hboxA : boxOf A = some (xa, ya, wa, ha))
    (hboxB : boxOf B = some (xb, yb, wb, hb)) :
    ((∀ ck, ck ∈ (alookup (g.update es).entity_cells A.entity_id).getD [] →
        ck ∉ (alookup (g.update es).entity_cells B.entity_id).getD []) →
      B ∉ (g.update es).get_potential_collisions A) ∧
    (0 ≤ wa → 0 ≤ ha → 0 ≤ wb → 0 ≤ hb →
     boxInBounds g xa ya wa ha → boxInBounds g xb yb wb hb →
     closedBoxesOverlap xa ya wa ha xb yb wb hb →
     B ∈ (g.update es).get_potential_collisions A ∧
     A ∈ (g.update es).get_potential_collisions B) := by
  obtain ⟨C1, C2, C3, C4⟩ := updateFold_char es
    { g with grid := [], entity_cells := [] } hnd
    (fun e he => rfl) (fun ck l hl => Option.noConfusion hl)
  obtain ⟨hecA, hgridA⟩ := C4 A hA hAact xa ya wa ha hboxA
  obtain ⟨hecB, hgridB⟩ := C4 B hB hBact xb yb wb hb hboxB
  have hup : g.update es = es.foldl SpatialGrid.insertEntity
      { g with grid := [], entity_cells := [] } := rfl
  rw [hup]
  constructor
  · intro hdisj hmem
    rw [mem_potential _ _ _ _ hecA] at hmem
    obtain ⟨hne2, hact2, ck, hck, l, hl, hBl⟩ := hmem
    obtain ⟨cellsB, hcB, hckB⟩ := C1 ck l hl B hBl
    have hbeq : cellsB =
        ({ g with grid := [], entity_cells := [] } : SpatialGrid).cellsFor
          xb yb wb hb :=
      Option.some.inj (hcB.symm.trans hecB)
    refine hdisj ck ?_ ?_
    · rw [hecA]
      exact hck
    · rw [hecB, ← hbeq]
      exact hckB
  · intro hwa hha hwb hhb hba hbb hov
    obtain ⟨ck, hckA, hckB⟩ := common_cell width height cell_size g hg hcs
      xa ya wa ha xb yb wb hb hwa hha hwb hhb hba hbb hov
    constructor
    · rw [mem_potential _ _ _ _ hecA]
      refine ⟨hne, hBact, ck, hckA, ?_⟩
      exact hgridB ck hckB
    · rw [mem_potential _ _ _ _ hecB]
      refine ⟨fun hx => hne hx.symm, hAact, ck, hckB, ?_⟩
      exact hgridA ck hckA

/-- C5 counterexample: in the 800×600 world, two overlapping 10×10 boxes
centered at (2000, 300) and (2005, 300) lie beyond the grid's last column,
so the clamped column range `max_col = cols − 1 = 8 < 19 = min_col` is
empty: both entities are assigned **no** cells and neither appears in the
other's candidate list even though their boxes overlap, refuting the
claimed completeness. -/
theorem c5_counterexample :
    openBoxesOverlap 2000 300 10 10 2005 300 10 10 ∧
    closedBoxesOverlap 2000 300 10 10 2005 300 10 10 ∧
    testBoxEntity 2 2005 300 10 10 ∉
      (testGrid.update [testBoxEntity 1 2000 300 10 10,
        testBoxEntity 2 2005 300 10 10]).get_potential_collisions
          (testBoxEntity 1 2000 300 10 10) := by
  refine ⟨by norm_num [openBoxesOverlap], by norm_num [closedBoxesOverlap], ?_⟩
  obtain ⟨C1, C2, C3, C4⟩ := updateFold_char
    [testBoxEntity 1 2000 300 10 10, testBoxEntity 2 2005 300 10 10]
    { testGrid with grid := [], entity_cells := [] }
    (by decide) (fun e he => rfl) (fun ck l hl => Option.noConfusion hl)
  obtain ⟨hecA, -⟩ := C4 (testBoxEntity 1 2000 300 10 10)
    (List.mem_cons_self _ _) rfl 2000 300 10 10 rfl
  have hnil : ({ testGrid with grid := [], entity_cells := [] } :
      SpatialGrid).cellsFor 2000 300 10 10 = [] := by
    apply cellsFor_eq_nil
    show min ((9 : ℤ) - 1) (pyInt ((2000 + 10 / 2 : ℚ) / ((100 : ℤ) : ℚ))) <
         max 0 (pyInt ((2000 - 10 / 2 : ℚ) / ((100 : ℤ) : ℚ)))
    rw [pyInt_eq_floor _ (by norm_num), pyInt_eq_floor _ (by norm_num)]
    have e1 : ⌊(2000 + 10 / 2 : ℚ) / ((100 : ℤ) : ℚ)⌋ = 20 := by norm_num
    have e2 : ⌊(2000 - 10 / 2 : ℚ) / ((100 : ℤ) : ℚ)⌋ = 19 := by norm_num
    rw [e1, e2]
    decide
  rw [hnil] at hecA
  have hup : testGrid.update [testBoxEntity 1 2000 300 10 10,
      testBoxEntity 2 2005 300 10 10] =
    List.foldl SpatialGrid.insertEntity
      { testGrid with grid := [], entity_cells := [] }
      [testBoxEntity 1 2000 300 10 10, testBoxEntity 2 2005 300 10 10] := rfl
  rw [hup, mem_potential _ _ _ _ hecA]
  rintro ⟨-, -, ck, hck, -⟩
  exact absurd hck (List.not_mem_nil ck)

/-- Witness for `c5_broad_phase`: two overlapping in-bounds 10×10 boxes at
(50,50) and (55,50) find each other in the candidate lists after a grid
rebuild. -/
theorem c5_broad_phase_witness :
    (([testBoxEntity 1 50 50 10 10,
       testBoxEntity 2 55 50 10 10].map Entity.entity_id).Nodup) ∧
    closedBoxesOverlap 50 50 10 10 55 50 10 10 ∧
    testBoxEntity 2 55 50 10 10 ∈
      (testGrid.update [testBoxEntity 1 50 50 10 10,
        testBoxEntity 2 55 50 10 10]).get_potential_collisions
          (testBoxEntity 1 50 50 10 10) ∧
    testBoxEntity 1 50 50 10 10 ∈
      (testGrid.update [testBoxEntity 1 50 50 10 10,
        testBoxEntity 2 55 50 10 10]).get_potential_collisions
          (testBoxEntity 2 55 50 10 10) := by
  have h := c5_broad_phase 800 600 100 testGrid testGrid_init (by decide)
    [testBoxEntity 1 50 50 10 10, testBoxEntity 2 55 50 10 10] (by decide)
    (testBoxEntity 1 50 50 10 10) (testBoxEntity 2 55 50 10 10)
    (List.mem_cons_self _ _) (List.mem_cons_of_mem _ (List.mem_cons_self _ _))
    rfl rfl (by decide) 50 50 10 10 55 50 10 10 rfl rfl
  obtain ⟨hmem1, hmem2⟩ := h.2 (by norm_num) (by norm_num) (by norm_num)
    (by norm_num) (by norm_num [boxInBounds, testGrid])
    (by norm_num [boxInBounds, testGrid]) (by norm_num [closedBoxesOverlap])
  exact ⟨by decide, by norm_num [closedBoxesOverlap], hmem1, hmem2⟩
